import Mathlib

/-!
Verification development for the unified real-estate ingestion pipeline
(`src/api/main.py`). Python strings are modelled as Lean `String`
(char-level work happens on `List Char`); Python dicts of CSV rows as
association lists with first-position/last-write-wins update; MongoDB
collections as lists of documents with upsert-by-filter semantics;
`datetime.now` as an externally supplied `Nat` tick. External
collaborators (hashlib sha256, the phonenumbers plan validator, the
email validator, dateutil's general parser) are modelled as
deterministic total functions at their boundary; only determinism and
output shape of those collaborators are relied on by any theorem.
All machine floats of the source are modelled as exact decimals
(`PyNum`) or rationals; no property proved here depends on float
rounding.
-/

/-! ### Python string primitives (char-level) -/

/-- Whitespace characters stripped by Python `str.strip` / matched by `\s`. -/
def pyWs (c : Char) : Bool :=
  c = ' ' || c = '\t' || c = '\n' || c = '\r' || c = '\x0b' || c = '\x0c'

/-- Python `str.strip()` on a char list. -/
def trimL (s : List Char) : List Char :=
  ((s.dropWhile pyWs).reverse.dropWhile pyWs).reverse

/-- ASCII lower-casing of one char (Python `str.lower` restricted to ASCII,
which is all the source's vocabulary uses). -/
def pyLowerChar (c : Char) : Char :=
  if 65 ≤ c.toNat ∧ c.toNat ≤ 90 then Char.ofNat (c.toNat + 32) else c

/-- ASCII upper-casing of one char (Python `str.upper` on ASCII). -/
def pyUpperChar (c : Char) : Char :=
  if 97 ≤ c.toNat ∧ c.toNat ≤ 122 then Char.ofNat (c.toNat - 32) else c

def lowerL (s : List Char) : List Char := s.map pyLowerChar

/-- ASCII letter (the `[a-zA-Z]` class of the source's regexes). -/
def isLetterAZ (c : Char) : Bool :=
  (97 ≤ c.toNat && c.toNat ≤ 122) || (65 ≤ c.toNat && c.toNat ≤ 90)

/-- Separator characters rewritten to spaces by `normalize_column_name`. -/
def isSepChar (c : Char) : Bool := c = '_' || c = '.' || c = '-'

/-- Separator replacement of `normalize_column_name`:
`.replace('_',' ').replace('.',' ').replace('-',' ')`. -/
def sepToSpace (s : List Char) : List Char :=
  s.map (fun c => if isSepChar c then ' ' else c)

/-- Collapse of `re.sub(r'\s+', ' ', s)`: every maximal whitespace run
becomes one single space. -/
def collapseWs : List Char → List Char
  | [] => []
  | [c] => if pyWs c then [' '] else [c]
  | a :: b :: t =>
    if pyWs a && pyWs b then collapseWs (b :: t)
    else (if pyWs a then ' ' else a) :: collapseWs (b :: t)

/-- The substitution `re.sub(r'([a-zA-Z])(\d+)', r'\1 \2', s)`: insert a
space at every boundary where an ASCII letter is immediately followed by a
digit. -/
def letterDigitSpace : List Char → List Char
  | [] => []
  | [c] => [c]
  | a :: b :: t =>
    if isLetterAZ a && b.isDigit then a :: ' ' :: letterDigitSpace (b :: t)
    else a :: letterDigitSpace (b :: t)

/-- Fuel-driven work loop for Python `str.replace` (left-to-right,
non-overlapping). The fuel is initialised to the length of the subject
string, which suffices because each step consumes at least one char. -/
def replaceFuel (p rep : List Char) : Nat → List Char → List Char
  | _, [] => []
  | 0, s => s
  | Nat.succ f, c :: rest =>
    if p.isPrefixOf (c :: rest) then
      rep ++ replaceFuel p rep f ((c :: rest).drop p.length)
    else
      c :: replaceFuel p rep f rest

/-- Python `s.replace(p, rep)` for a non-empty pattern. -/
def pyReplace (s p rep : List Char) : List Char :=
  if p.isEmpty then s else replaceFuel p rep s.length s

/-- Decidable substring test (`p in s` for Python strings). -/
def containsSub (p : List Char) : List Char → Bool
  | [] => p.isEmpty
  | c :: rest => p.isPrefixOf (c :: rest) || containsSub p rest

/-! ### Field Normalizer (`normalize_column_name`, main.py lines 92-102) -/

/-- Char-level pipeline of `normalize_column_name`: strip, lower, turn
separators into spaces, collapse whitespace runs, split a trailing
letter from a following digit run, then the three literal rewrites. -/
def normalizeChars (s : List Char) : List Char :=
  let s1 := lowerL (trimL s)
  let s2 := sepToSpace s1
  let s3 := collapseWs s2
  let s4 := letterDigitSpace s3
  let s5 := pyReplace s4 "address street".data "property address".data
  let s6 := pyReplace s5 "owner first name".data "first name".data
  pyReplace s6 "owner last name".data "last name".data

/-- The source's `normalize_column_name`. -/
def normalize_column_name (s : String) : String :=
  String.mk (normalizeChars s.data)

/-- Python `str.strip()` on a `String` value. -/
def pyStrip (s : String) : String := String.mk (trimL s.data)

def pyLower (s : String) : String := String.mk (lowerL s.data)

def pyUpper (s : String) : String := String.mk (s.data.map pyUpperChar)

/-- Python `s[:n]`. -/
def pyTake (s : String) (n : Nat) : String := String.mk (s.data.take n)

/-! ### Validators (main.py lines 104-163) -/

/-- The source's `clean_apn`: strip non-digits (`re.sub(r"[^\d]", "", ...)`),
reject when nothing is left (`"".isdigit()` is false in Python; a non-empty
digit-only string always passes `isdigit`), then `zfill(10)`. -/
def clean_apn (raw_apn : String) : Option String :=
  let cleaned := (trimL raw_apn.data).filter Char.isDigit
  if cleaned.isEmpty then none
  else some (String.mk (List.replicate (10 - cleaned.length) '0' ++ cleaned))

/-- The source's `validate_zip`: strip non-digits, accept only exact
length 5. -/
def validate_zip (zip_code : String) : Option String :=
  let cleaned := (trimL zip_code.data).filter Char.isDigit
  if cleaned.length = 5 then some (String.mk cleaned) else none

/-- Association-list row (Python dict of a CSV row). First matching key
wins on lookup. -/
abbrev Row := List (String × String)

/-- Python dict lookup `row.get(key)`. -/
def dget (r : Row) (k : String) : Option String :=
  (r.find? (fun kv => kv.1 = k)).map Prod.snd

/-- Python dict lookup with default, `row.get(key, d)`. -/
def dgetD (r : Row) (k d : String) : String := (dget r k).getD d

/-- Python dict update `r[k] = v`: overwrite in place, keep first-insertion
position, append if absent. -/
def dset (r : Row) (k v : String) : Row :=
  match r with
  | [] => [(k, v)]
  | kv :: t => if kv.1 = k then (k, v) :: t else kv :: dset t k v

/-- Python `zip_val.split("-")[0]`. -/
def splitHyphenHead (s : String) : String :=
  String.mk (s.data.takeWhile (fun c => c ≠ '-'))

/-- The source's `extract_best_zip` (main.py lines 139-151): walk the
candidate keys in priority order; skip falsy values; accept a directly
valid zip, else, when the value contains a hyphen, return the raw prefix
before the first hyphen provided that prefix validates. -/
def extract_best_zip (row : Row) (zip_keys : List String) : Option String :=
  match zip_keys with
  | [] => none
  | key :: rest =>
    match dget row key with
    | none => extract_best_zip row rest
    | some zip_val =>
      if zip_val = "" then extract_best_zip row rest
      else
        match validate_zip zip_val with
        | some direct_clean => some direct_clean
        | none =>
          if zip_val.data.contains '-' then
            let base_zip := splitHyphenHead zip_val
            match validate_zip base_zip with
            | some _ => some base_zip
            | none => extract_best_zip row rest
          else extract_best_zip row rest

/-- Exact decimal, modelling the value of a parsed Python float literal
`sign * mantissa / 10 ^ exp`. Only construction and decidable equality
are ever used; no claim depends on float rounding. -/
structure PyNum where
  mantissa : Int
  exp : Nat
deriving DecidableEq, Repr

/-- Parse of a plain decimal literal (optional sign, digits, optional
fractional part), the shape of every numeric CSV value the pipeline
consumes; other spellings Python's `float` would accept (exponents,
`inf`, `nan`) are not produced by the data model and are rejected here. -/
def parseDecimal (s : String) : Option PyNum :=
  let t := trimL s.data
  let (sign, t1) : Int × List Char :=
    match t with
    | '-' :: r => (-1, r)
    | '+' :: r => (1, r)
    | r => (1, r)
  let intPart := t1.takeWhile Char.isDigit
  let rest := t1.drop intPart.length
  let mkNat := fun (ds : List Char) => ds.foldl (fun a c => a * 10 + (c.toNat - 48)) 0
  match rest with
  | [] =>
    if intPart.isEmpty then none
    else some ⟨sign * Int.ofNat (mkNat intPart), 0⟩
  | '.' :: fracs =>
    if fracs.all Char.isDigit ∧ ¬(intPart.isEmpty ∧ fracs.isEmpty) then
      some ⟨sign * Int.ofNat (mkNat (intPart ++ fracs)), fracs.length⟩
    else none
  | _ => none

/-- The source's `safe_int`: `int(float(value))` guarded; truncation toward
zero, `None` on empty input or parse failure. -/
def safe_int (value : String) : Option Int :=
  if value = "" then none
  else (parseDecimal value).map (fun n => Int.tdiv n.mantissa (Int.ofNat (10 ^ n.exp)))

/-- The source's `safe_float`: `float(value)` guarded; `None` on empty input
or parse failure. -/
def safe_float (value : String) : Option PyNum :=
  if value = "" then none else parseDecimal value

/-- Splitter of `re.split(r'[|,;]', s)`. -/
def splitArraySeps : List Char → List (List Char)
  | [] => [[]]
  | c :: t =>
    match splitArraySeps t with
    | [] => []
    | g :: gs =>
      if c = '|' || c = ',' || c = ';' then [] :: g :: gs else (c :: g) :: gs

/-- Strip of a leading/trailing run of double quotes (Python
`.strip('"')`). -/
def stripQuotes (s : List Char) : List Char :=
  ((s.dropWhile (fun c => c = '"')).reverse.dropWhile (fun c => c = '"')).reverse

/-- The source's `parse_array` (main.py lines 161-163): split on `|`, `,`,
`;`; keep segments whose strip is non-empty; each kept segment is stripped
of whitespace then of quote chars. -/
def parse_array (value : String) : List String :=
  if value = "" then []
  else
    (splitArraySeps value.data).filterMap (fun v =>
      if (trimL v).isEmpty then none
      else some (String.mk (stripQuotes (trimL v))))

/-! ### Column alias tables and `map_column` (main.py lines 58-85, 165-172) -/

def REQUIRED_COLUMN_MAPPINGS : List (String × List String) :=
  [("apn", ["apn"]),
   ("first name", ["first name", "owner.first_name", "owner first name", "first", "firstname"]),
   ("last name", ["last name", "owner.last_name", "owner last name", "last", "lastname"]),
   ("property address", ["property address", "address.street", "address street", "street"])]

def OPTIONAL_COLUMN_MAPPINGS : List (String × List String) :=
  [("property city", ["property city", "address.city"]),
   ("property state", ["property state", "address.state"]),
   ("property zip", ["property zip", "address.zip"]),
   ("bedrooms", ["bedrooms"]),
   ("bathrooms", ["bathrooms"]),
   ("sqft", ["sqft"]),
   ("year", ["year", "year built"]),
   ("estimated value", ["estimated value"]),
   ("last sale price", ["last sale price"]),
   ("last sold", ["last sold"]),
   ("mailing address", ["mailing address"]),
   ("mailing city", ["mailing city"]),
   ("mailing state", ["mailing state"]),
   ("mailing zip", ["mailing zip", "mailing zip5"]),
   ("status", ["status"]),
   ("tags", ["tags"]),
   ("email 1", ["email 1", "email 2", "email 3", "email 4", "email 5",
                "email 6", "email 7", "email 8", "email 9", "email 10"]),
   ("tax delinquent year", ["tax delinquent year"]),
   ("tax delinquent value", ["tax delinquent value"])]

/-- The source's `map_column`: normalize the name; an exact hit on a
canonical key wins, otherwise the first canonical key (in table order) one
of whose aliases normalizes to the same string. -/
def map_column (column_name : String) (mappings : List (String × List String)) :
    Option String :=
  let normalized := normalize_column_name column_name
  if (mappings.map Prod.fst).contains normalized then some normalized
  else
    (mappings.find? (fun cm =>
      cm.2.any (fun al => normalize_column_name al = normalized))).map Prod.fst

/-! ### Identity Hasher and external collaborators -/

def hexDigit (n : Nat) : Char :=
  if n < 10 then Char.ofNat (48 + n) else Char.ofNat (87 + n)

/-- Modelled: `hashlib.sha256(...).hexdigest()`. The cryptographic digest is
an external collaborator; the pipeline relies only on it being a
deterministic function of its input producing a hex string, which this
byte-wise hex encoding provides. -/
def sha256_hexdigest (s : String) : String :=
  String.mk (s.data.foldr
    (fun c acc => hexDigit (c.toNat % 256 / 16) :: hexDigit (c.toNat % 16) :: acc) [])

/-- The source's `generate_owner_hash` (main.py lines 174-176). -/
def generate_owner_hash (first_name last_name mailing_address zip_code : String) :
    String :=
  sha256_hexdigest
    (pyLower (pyStrip first_name) ++ "_" ++ pyLower (pyStrip last_name) ++ "_" ++
      pyLower (pyStrip mailing_address) ++ "_" ++ zip_code)

/-- Modelled: the `phonenumbers` US numbering-plan validator behind
`clean_phone` (main.py lines 118-133). The library is an external
collaborator; it is modelled as accepting a string whose digits form a
10-digit national number (optionally preceded by country code 1), and the
source then strips the `+1` country code from the E.164 form, leaving the
bare 10 digits. Only determinism and the canonical output are used. -/
def clean_phone (phone : String) : Option String :=
  let digits := phone.data.filter Char.isDigit
  if digits.length = 10 then some (String.mk digits)
  else if digits.length = 11 ∧ digits.head? = some '1' then
    some (String.mk (digits.drop 1))
  else none

/-- Modelled: `email_validator.validate_email(..., check_deliverability=False)`
followed by `.normalized` (main.py lines 344-346). The library is an
external collaborator; it is modelled as accepting a non-empty
`local@domain.tld` shape without whitespace and normalizing to lower
case. Only determinism is used. -/
def validate_email_normalized (email : String) : Option String :=
  let cs := email.data
  let atSplit := cs.takeWhile (fun c => c ≠ '@')
  let domain := (cs.drop (atSplit.length + 1))
  if (cs.filter (fun c => c = '@')).length = 1 ∧ ¬atSplit.isEmpty ∧
      domain.contains '.' ∧ ¬domain.isEmpty ∧ cs.all (fun c => ¬pyWs c) then
    some (pyLower email)
  else none

/-! ### Date parsing models (main.py lines 430-439, 453-460, 486-503) -/

def digitsAt (s : List Char) (off len : Nat) : Bool :=
  ((s.drop off).take len).length == len && ((s.drop off).take len).all Char.isDigit

def natAt (s : List Char) (off len : Nat) : Nat :=
  ((s.drop off).take len).foldl (fun a c => a * 10 + (c.toNat - 48)) 0

def isLeapYear (y : Nat) : Bool := (y % 4 = 0 && y % 100 ≠ 0) || y % 400 = 0

def daysInMonth (y m : Nat) : Nat :=
  if m = 2 then (if isLeapYear y then 29 else 28)
  else if m = 4 ∨ m = 6 ∨ m = 9 ∨ m = 11 then 30
  else 31

/-- Prefix test of `re.match(r"\d{4}-\d{2}-\d{2} \d{2}:\d{2}:\d{2}", s)`. -/
def matchesDatetimePrefix (s : String) : Bool :=
  let c := s.data
  digitsAt c 0 4 && ((c.drop 4).head? == some '-') &&
  digitsAt c 5 2 && ((c.drop 7).head? == some '-') &&
  digitsAt c 8 2 && ((c.drop 10).head? == some ' ') &&
  digitsAt c 11 2 && ((c.drop 13).head? == some ':') &&
  digitsAt c 14 2 && ((c.drop 16).head? == some ':') &&
  digitsAt c 17 2

/-- Exact parse `datetime.strptime(s, "%Y-%m-%d %H:%M:%S")`: the full string
must have the shape and carry a calendar-valid date and clock time. -/
def strptimeDatetime (s : String) : Bool :=
  let c := s.data
  matchesDatetimePrefix s && (c.length == 19) &&
  (decide (1 ≤ natAt c 5 2) && decide (natAt c 5 2 ≤ 12)) &&
  (decide (1 ≤ natAt c 8 2) &&
    decide (natAt c 8 2 ≤ daysInMonth (natAt c 0 4) (natAt c 5 2))) &&
  decide (natAt c 11 2 ≤ 23) && decide (natAt c 14 2 ≤ 59) &&
  decide (natAt c 17 2 ≤ 59)

/-- Prefix test of `re.match(r"\d{2}/\d{4}", s)`. -/
def matchesMonthYearPrefix (s : String) : Bool :=
  let c := s.data
  digitsAt c 0 2 && (c.drop 2).head? = some '/' && digitsAt c 3 4

/-- Exact parse `datetime.strptime("01/" ++ s, "%d/%m/%Y")`: succeeds only
when `s` is exactly `MM/YYYY` with a valid month. -/
def strptimeMonthYear (s : String) : Bool :=
  matchesMonthYearPrefix s && (s.data.length == 7) &&
  (decide (1 ≤ natAt s.data 0 2) && decide (natAt s.data 0 2 ≤ 12))

/-- Modelled: `dateutil.parser.parse`, the general best-effort date parser
(external collaborator). Modelled as succeeding exactly on inputs that
contain a digit; no claim depends on its verdict or value. -/
def dateutil_parse (s : String) : Option String :=
  if s.data.any Char.isDigit then some s else none

/-! ### Tag event patterns (main.py lines 404-413, 441-462) -/

/-- Word char of the regex class `\w` (ASCII model). -/
def isWordChar (c : Char) : Bool := isLetterAZ c || c.isDigit || c = '_'

/-- Test that `s` starts with `\d{2}/\d{4}`. -/
def mmYyyyAt (s : List Char) : Bool :=
  digitsAt s 0 2 && ((s.drop 2).head? == some '/') && digitsAt s 3 4

/-- Test that `s` starts with `(\w+) (\d{2}/\d{4})` — a maximal non-empty word
run, a literal space, then a month/year. (The regex's `\w+` cannot end
before a word char, so the maximal run is the only viable match.) -/
def wordSpaceMmYyyyAt (s : List Char) : Bool :=
  let w := s.takeWhile isWordChar
  !w.isEmpty && (((s.drop w.length).head? == some ' ') && mmYyyyAt (s.drop (w.length + 1)))

/-- One entry of `TAG_EVENT_PATTERNS`: the three regexes with groups get
dedicated matchers, the rest are literal substring searches. -/
inductive TagPat
  | skipTraced
  | listPurchased
  | readymode
  | lit (s : String)
deriving DecidableEq, Repr

/-- Search for a `TagPat` anywhere in the (lower-cased) tag, the behaviour
of `re.search(pattern, tag_lower)`. -/
def tagPatSearch (p : TagPat) (s : List Char) : Bool :=
  match p with
  | .lit l => containsSub l.data s
  | .skipTraced =>
    (List.range (s.length + 1)).any (fun i =>
      "skip traced ".data.isPrefixOf (s.drop i) &&
      wordSpaceMmYyyyAt (s.drop (i + 12)))
  | .listPurchased =>
    (List.range (s.length + 1)).any (fun i =>
      "list purchased ".data.isPrefixOf (s.drop i) &&
      wordSpaceMmYyyyAt (s.drop (i + 15)))
  | .readymode =>
    (List.range (s.length + 1)).any (fun i =>
      "readymode ".data.isPrefixOf (s.drop i) &&
      mmYyyyAt (s.drop (i + 10)))

/-- `TAG_EVENT_PATTERNS` in source order (main.py lines 404-413). -/
def TAG_EVENT_PATTERNS : List (TagPat × String) :=
  [(.skipTraced, "SKIP_TRACED"),
   (.listPurchased, "LIST_PURCHASED"),
   (.readymode, "READYMODE_UPDATE"),
   (.lit "original owner", "ORIGINAL_OWNER"),
   (.lit "vacant", "VACANT_HOME"),
   (.lit "poor/fair condition", "POOR_CONDITION"),
   (.lit "probate", "PROBATE"),
   (.lit "quit claim", "QUIT_CLAIM_DEED")]

/-- First match of `re.search(r"(\d{2}/\d{4})", tag)`: the earliest
position where `\d{2}/\d{4}` matches, returning the seven matched chars. -/
def findMmYyyy (s : List Char) : Option String :=
  ((List.range (s.length + 1)).find? (fun i => mmYyyyAt (s.drop i))).map
    (fun i => String.mk ((s.drop i).take 7))

/-- `known_life_event_fields` in source order (main.py lines 387-403). -/
def known_life_event_fields : List (String × String) :=
  [("tax auction date", "TAX_AUCTION"),
   ("tax delinquent value", "TAX_DELINQUENCY"),
   ("tax delinquent year", "TAX_DELINQUENCY"),
   ("year behind on taxes", "TAX_DELINQUENCY"),
   ("lien type", "LIEN"),
   ("lien recording date", "LIEN"),
   ("foreclosure date", "FORECLOSURE"),
   ("bankruptcy recording date", "BANKRUPTCY"),
   ("divorce file date", "DIVORCE"),
   ("probate open date", "PROBATE"),
   ("personal representative", "PROBATE"),
   ("attorney on file", "PROBATE"),
   ("deed", "DEED_CHANGE"),
   ("last sold", "PROPERTY_SALE"),
   ("owned since", "OWNERSHIP_DURATION")]

/-! ### Documents and the store

MongoDB documents produced by the pipeline, with exactly the fields the
source writes. Times (`datetime.now(timezone.utc)`) are externally
supplied `Nat` ticks; parsed dates are represented by the string that
parsed (determinism is all any theorem uses). -/

structure Address where
  street : String
  city : String
  state : String
  zip : String
deriving DecidableEq, Repr

structure Characteristics where
  bedrooms : Option Int
  bathrooms : Option PyNum
  sqft : Option PyNum
  year_built : Option Int
deriving DecidableEq, Repr

structure PropertyValuation where
  estimated_value : Option PyNum
  last_sale_price : Option PyNum
deriving DecidableEq, Repr

structure SaleHistoryEntry where
  event_type : String
  date : String
  amount : Option PyNum
  description : String
  last_updated : Nat
deriving DecidableEq, Repr

structure LastSale where
  date : String
  price : Option PyNum
deriving DecidableEq, Repr

/-- Property document as built by `process_unified_row` (lines 320-339,
486-503) and stored by the `$set` upsert. The `sale_history`/`last_sale`
keys are present only when a sale was parsed (`Option` = key presence). -/
structure PropertyDoc where
  apn : String
  address : Address
  characteristics : Characteristics
  valuation : PropertyValuation
  last_updated : Nat
  sale_history : Option (List SaleHistoryEntry)
  last_sale : Option LastSale
deriving DecidableEq, Repr

/-- Owner entity as built by `process_unified_row` (lines 349-365). -/
structure OwnerEntity where
  owner_id : String
  normalized_owner_id : String
  apn : String
  full_name : String
  mailing_address : Address
  emails : List String
  phone_ids : List String
  tags : List String
  status : String
  last_updated : Nat
deriving DecidableEq, Repr

/-- Owner document as stored by the owner upsert (lines 537-559): the
`owner_id` display label is never persisted. -/
structure OwnerDoc where
  normalized_owner_id : String
  apn : String
  full_name : String
  mailing_address : Address
  emails : List String
  tags : List String
  phone_ids : List String
  status : String
  last_updated : Nat
deriving DecidableEq, Repr

/-- Phone entity as built by `process_unified_row` (lines 375-384). -/
structure PhoneEntity where
  phone_id : String
  number : String
  linked_apns : List String
  linked_owners : List String
  type : String
  status : String
  tags : List String
  last_updated : Nat
deriving DecidableEq, Repr

/-- Phone document as stored by the phone upsert (lines 565-585). -/
structure PhoneDoc where
  phone_id : String
  number : String
  type : String
  status : String
  tags : List String
  created_at : Nat
  last_updated : Nat
  linked_apns : List String
  linked_owners : List String
deriving DecidableEq, Repr

/-- Life-event entity as built by `process_unified_row` (lines 417-485).
`source_detail` is `none` exactly when the Python dict lacks the key (the
"Tag Analysis" events); `details` is carried but never persisted. -/
structure LifeEventEntity where
  apn : String
  event_type : String
  source : String
  source_detail : Option String
  event_date : Option String
  notification_date : Nat
  last_updated : Nat
  details : Option (List String)
deriving DecidableEq, Repr

/-- Life-event document as stored by the life-event upsert (lines 586-608). -/
structure LifeEventDoc where
  apn : String
  event_type : String
  source_detail : String
  created_at : Nat
  event_date : Option String
  notification_date : Nat
  last_updated : Nat
  source : String
  related_tags : List String
deriving DecidableEq, Repr

/-- Fallback-queue entry (`fallback_candidates` collection, inserted at
lines 267-308, enriched at lines 1030-1043). `id` models the Mongo `_id`. -/
structure PendingCandidate where
  id : Nat
  raw_data : Row
  reason : String
  status : String
  created_at : Nat
  source : String
  enrichment_attempted_at : Option Nat
  enrichment_status : Option String
  enrichment_method : Option String
  enrichment_apn : Option String
  enrichment_confidence : Option ℚ
  processing_time : Option ℚ
deriving DecidableEq, Repr

/-- The document store: the collections the pipeline writes, plus a
counter supplying fresh `_id`s for inserts. -/
structure Store where
  properties : List PropertyDoc
  owners : List OwnerDoc
  phones : List PhoneDoc
  life_events : List LifeEventDoc
  fallback_candidates : List PendingCandidate
  next_id : Nat
deriving DecidableEq, Repr

def emptyStore : Store := ⟨[], [], [], [], [], 0⟩

/-- Mongo `$addToSet` with `$each`: append each value not yet present, in
order, never duplicating. -/
def addToSet (arr : List String) (xs : List String) : List String :=
  xs.foldl (fun a x => if x ∈ a then a else a ++ [x]) arr

/-! ### Persistence Merge Layer (upsert semantics of
`process_unified_batch`, main.py lines 532-608)

Each op is an `UpdateOne(filter, update, upsert=True)` against a
collection with a unique index on its natural key: the first document
matching the filter is merged, otherwise a new document is created from
the filter equality plus the update operators. -/

/-- Property op (lines 532-536): filter `{apn}`, update `{"$set": doc}` —
every key present in the freshly built document overwrites; the optional
`sale_history`/`last_sale` keys overwrite only when present. -/
def upsertProperty (props : List PropertyDoc) (e : PropertyDoc) : List PropertyDoc :=
  match props with
  | [] => [e]
  | d :: ds =>
    if d.apn = e.apn then
      { e with
        sale_history := match e.sale_history with
          | some h => some h
          | none => d.sale_history
        last_sale := match e.last_sale with
          | some l => some l
          | none => d.last_sale } :: ds
    else d :: upsertProperty ds e

/-- Owner op (lines 537-559): filter `{normalized_owner_id}`,
`$setOnInsert` identity fields, `$addToSet` emails/tags (and phone_ids
only when the entity's list is non-empty), `$set` status/last_updated. -/
def upsertOwner (owners : List OwnerDoc) (e : OwnerEntity) : List OwnerDoc :=
  match owners with
  | [] =>
    [{ normalized_owner_id := e.normalized_owner_id
       apn := e.apn
       full_name := e.full_name
       mailing_address := e.mailing_address
       emails := addToSet [] e.emails
       tags := addToSet [] e.tags
       phone_ids := if e.phone_ids.isEmpty then [] else addToSet [] e.phone_ids
       status := e.status
       last_updated := e.last_updated }]
  | d :: ds =>
    if d.normalized_owner_id = e.normalized_owner_id then
      { d with
        emails := addToSet d.emails e.emails
        tags := addToSet d.tags e.tags
        phone_ids := if e.phone_ids.isEmpty then d.phone_ids
          else addToSet d.phone_ids e.phone_ids
        status := e.status
        last_updated := e.last_updated } :: ds
    else d :: upsertOwner ds e

/-- Phone op (lines 565-585): filter `{number}`, `$setOnInsert` identity
fields and `created_at`, `$set` last_updated, `$addToSet` the link sets. -/
def upsertPhone (phones : List PhoneDoc) (e : PhoneEntity) : List PhoneDoc :=
  match phones with
  | [] =>
    [{ phone_id := e.phone_id
       number := e.number
       type := e.type
       status := e.status
       tags := e.tags
       created_at := e.last_updated
       last_updated := e.last_updated
       linked_apns := addToSet [] e.linked_apns
       linked_owners := addToSet [] e.linked_owners }]
  | d :: ds =>
    if d.number = e.number then
      { d with
        last_updated := e.last_updated
        linked_apns := addToSet d.linked_apns e.linked_apns
        linked_owners := addToSet d.linked_owners e.linked_owners } :: ds
    else d :: upsertPhone ds e

/-- Life-event op (lines 586-608): composite filter
`{apn, event_type, source_detail}`, `$setOnInsert` created_at, `$set`
dates/source, `$addToSet related_tags: [source_detail]`. `now` supplies
the `datetime.now` used for `created_at` at op-construction time. -/
def upsertLifeEvent (les : List LifeEventDoc) (e : LifeEventEntity)
    (sd : String) (now : Nat) : List LifeEventDoc :=
  match les with
  | [] =>
    [{ apn := e.apn
       event_type := e.event_type
       source_detail := sd
       created_at := now
       event_date := e.event_date
       notification_date := e.notification_date
       last_updated := e.last_updated
       source := e.source
       related_tags := addToSet [] [sd] }]
  | d :: ds =>
    if d.apn = e.apn ∧ d.event_type = e.event_type ∧ d.source_detail = sd then
      { d with
        event_date := e.event_date
        notification_date := e.notification_date
        last_updated := e.last_updated
        source := e.source
        related_tags := addToSet d.related_tags [sd] } :: ds
    else d :: upsertLifeEvent ds e sd now

/-! ### Entity Decomposer (`process_unified_row`, main.py lines 252-512) -/

/-- Outcome of the validation/routing prefix of `process_unified_row`
(lines 264-312): route to pending with a reason, drop silently
(non-target jurisdiction), or proceed with the cleaned apn and the two
extracted zips. -/
inductive Gate
  | pending (reason : String)
  | dropped
  | ok (apn property_zip mailing_zip : String)
deriving DecidableEq, Repr

/-- The normalized row `processed_row` (line 254): keys normalized, values
stringified and stripped, later collisions overwriting. -/
def processed_row_of (row : Row) : Row :=
  row.foldl (fun acc kv => dset acc (normalize_column_name kv.1) (pyStrip kv.2)) []

/-- The canonical row `mapped_row` (lines 258-263): every processed column
mapped through the required then optional alias tables; unmapped columns
contribute nothing. -/
def mapped_row_of (row : Row) : Row :=
  (processed_row_of row).foldl (fun acc kv =>
    match (map_column kv.1 REQUIRED_COLUMN_MAPPINGS).orElse
        (fun _ => map_column kv.1 OPTIONAL_COLUMN_MAPPINGS) with
    | some canonical => dset acc canonical kv.2
    | none => acc) []

/-- Validation/routing prefix of `process_unified_row` on the precomputed
processed and mapped rows (lines 264-312), in source order: blank apn,
unparseable apn, invalid property zip, invalid mailing zip, then the
jurisdiction filter against `"WA"`. -/
def row_gate (processed mapped : Row) : Gate :=
  let raw_apn := dgetD mapped "apn" ""
  if raw_apn = "" ∨ pyStrip raw_apn = "" then .pending "missing_apn"
  else
    match clean_apn raw_apn with
    | none => .pending "apn_not_numeric_or_too_short"
    | some apn =>
      match extract_best_zip processed ["property zip 5", "property zip"] with
      | none => .pending "invalid_property_zip"
      | some property_zip =>
        match extract_best_zip processed ["mailing zip 5", "mailing zip"] with
        | none => .pending "invalid_mailing_zip"
        | some mailing_zip =>
          if pyUpper (pyStrip (dgetD mapped "property state" "")) ≠ "WA" then .dropped
          else .ok apn property_zip mailing_zip

/-- The gate applied to a raw row. -/
def rowGate (row : Row) : Gate :=
  row_gate (processed_row_of row) (mapped_row_of row)

/-- Owner natural key of a row (lines 313-318): hash of the mapped name
and mailing-address fields plus the extracted mailing zip. -/
def owner_key_of (mapped : Row) (mailing_zip : String) : String :=
  generate_owner_hash (dgetD mapped "first name" "") (dgetD mapped "last name" "")
    (dgetD mapped "mailing address" "") mailing_zip

/-- Positional loop indices as literal strings (`range(1, 11)` and
`range(1, 31)` of the email and phone loops). -/
def idx10 : List String := ["1","2","3","4","5","6","7","8","9","10"]

def idx30 : List String :=
  ["1","2","3","4","5","6","7","8","9","10","11","12","13","14","15",
   "16","17","18","19","20","21","22","23","24","25","26","27","28","29","30"]

/-- Email extraction (lines 340-348): positional `email i` columns of the
processed row, validated and normalized, invalid ones dropped. -/
def emails_of (processed : Row) : List String :=
  idx10.filterMap (fun i =>
    let email := pyStrip (dgetD processed ("email " ++ i) "")
    if email = "" then none else validate_email_normalized email)

/-- Phone documents (lines 366-386): positional `phone i` columns of the
processed row; each validly parsed number yields a document linked back to
the row's apn and owner display id. The `phone type i`/`phone status i`/
`phone tags i` lookups go to the mapped row, whose alias tables never
produce such keys, so the defaults always apply — modelled faithfully. -/
def phone_docs_of (processed mapped : Row) (apn owner_id : String) (now : Nat) :
    List PhoneEntity :=
  idx30.filterMap (fun i =>
    let phone := dgetD processed ("phone " ++ i) ""
    if phone = "" then none
    else
      (clean_phone phone).map (fun phone_number =>
        { phone_id := "PHONE-" ++ pyTake (sha256_hexdigest phone_number) 8
          number := phone_number
          linked_apns := [apn]
          linked_owners := [owner_id]
          type := pyUpper (dgetD mapped ("phone type " ++ i) "UNKNOWN")
          status := pyUpper (dgetD mapped ("phone status " ++ i) "UNVERIFIED")
          tags := parse_array (dgetD mapped ("phone tags " ++ i) "")
          last_updated := now }))

/-- Date parse of a CSV life-event field (lines 430-439): exact datetime
format, else month/year (with `01/` prepended), else the general parser;
any failure leaves the date `None` while the event is still emitted. -/
def csv_event_date (raw_value : String) : Option String :=
  if matchesDatetimePrefix raw_value then
    if strptimeDatetime raw_value then some raw_value else none
  else if matchesMonthYearPrefix raw_value then
    if strptimeMonthYear raw_value then some ("01/" ++ raw_value) else none
  else dateutil_parse raw_value

/-- CSV-field life events (lines 417-440): one event per non-empty known
field, dated only when the field name suggests a date. -/
def csv_life_events (mapped : Row) (apn : String) (now : Nat) :
    List LifeEventEntity :=
  known_life_event_fields.filterMap (fun fe =>
    let raw_value := pyStrip (dgetD mapped fe.1 "")
    if raw_value = "" then none
    else
      some
        { apn := apn
          event_type := fe.2
          source := "CSV Field"
          source_detail := some fe.1
          event_date :=
            if containsSub "date".data (pyLower fe.1).data ∨
                containsSub "year".data (pyLower fe.1).data ∨
                containsSub "since".data (pyLower fe.1).data then
              csv_event_date raw_value
            else none
          notification_date := now
          last_updated := now
          details := none })

/-- Events contributed by one owner tag (lines 441-476): the first matching
pattern yields a "Tag" event (with a best-effort `MM/YYYY` date pulled from
the raw tag); condition keywords yield a "Tag Analysis" PHYSICAL_DISTRESS
event that carries no `source_detail` key. -/
def tag_events_of (tag : String) (apn : String) (now : Nat) :
    List LifeEventEntity :=
  let tag_lower := pyLower tag
  let patternEvent :=
    match TAG_EVENT_PATTERNS.find? (fun pe => tagPatSearch pe.1 tag_lower.data) with
    | none => []
    | some pe =>
      [{ apn := apn
         event_type := pe.2
         source := "Tag"
         source_detail := some tag
         event_date :=
           match findMmYyyy tag.data with
           | none => none
           | some m => if strptimeMonthYear m then some ("01/" ++ m) else none
         notification_date := now
         last_updated := now
         details := none }]
  let distressEvent :=
    if containsSub "poor condition".data tag_lower.data ∨
        containsSub "fair condition".data tag_lower.data then
      [{ apn := apn
         event_type := "PHYSICAL_DISTRESS"
         source := "Tag Analysis"
         source_detail := none
         event_date := none
         notification_date := now
         last_updated := now
         details := none }]
    else []
  patternEvent ++ distressEvent

/-- Sale reasons contributed by one tag (lines 463-468). -/
def tag_sale_reasons (tag : String) : List String :=
  let tag_lower := pyLower tag
  (if containsSub "tired landlords".data tag_lower.data then ["TIRED_LANDLORD"] else []) ++
  (if containsSub "empty nesters".data tag_lower.data then ["EMPTY_NESTERS"] else []) ++
  (if containsSub "high equity".data tag_lower.data then ["HIGH_EQUITY"] else [])

/-- All life events of a row (lines 414-485): CSV-field events, then the
per-tag events, then a single SALE_REASON "Tag Analysis" event (again
without `source_detail`) when any sale reasons accumulated. -/
def life_events_of (mapped : Row) (tags : List String) (apn : String) (now : Nat) :
    List LifeEventEntity :=
  let base := csv_life_events mapped apn now ++
    tags.flatMap (fun tag => tag_events_of tag apn now)
  let sale_reasons := tags.flatMap tag_sale_reasons
  if sale_reasons.isEmpty then base
  else
    base ++
      [{ apn := apn
         event_type := "SALE_REASON"
         source := "Tag Analysis"
         source_detail := none
         event_date := none
         notification_date := now
         last_updated := now
         details := some sale_reasons }]

/-- Sale attachment (lines 486-503): when `last sold` and `last sale price`
are both present (and `last sold` is not a placeholder) and the date parses
in the exact datetime format, the property document gains a one-entry
`sale_history` and a `last_sale` summary; otherwise both keys stay absent. -/
def sale_fields_of (mapped : Row) (now : Nat) :
    Option (List SaleHistoryEntry) × Option LastSale :=
  let last_sold := pyStrip (dgetD mapped "last sold" "")
  let sale_price := pyStrip (dgetD mapped "last sale price" "")
  if last_sold ≠ "" ∧ sale_price ≠ "" ∧
      pyLower last_sold ≠ "none" ∧ pyLower last_sold ≠ "n/a" then
    if strptimeDatetime last_sold then
      (some [{ event_type := "SALE"
               date := last_sold
               amount := safe_float sale_price
               description := "Property sale recorded"
               last_updated := now }],
       some { date := last_sold, price := safe_float sale_price })
    else (none, none)
  else (none, none)

/-- The property document of a row (lines 320-339 and 486-503). -/
def property_entity_of (mapped : Row) (apn property_zip : String) (now : Nat) :
    PropertyDoc :=
  { apn := apn
    address :=
      { street := dgetD mapped "property address" ""
        city := dgetD mapped "property city" ""
        state := pyTake (pyUpper (dgetD mapped "property state" "")) 2
        zip := property_zip }
    characteristics :=
      { bedrooms := safe_int (dgetD mapped "bedrooms" "")
        bathrooms := safe_float (dgetD mapped "bathrooms" "")
        sqft := safe_float (dgetD mapped "sqft" "")
        year_built := safe_int (dgetD mapped "year" "") }
    valuation :=
      { estimated_value := safe_float (dgetD mapped "estimated value" "")
        last_sale_price := safe_float (dgetD mapped "last sale price" "") }
    last_updated := now
    sale_history := (sale_fields_of mapped now).1
    last_sale := (sale_fields_of mapped now).2 }

/-- The owner document of a row (lines 349-365 and the `phone_ids` appends
of the phone loop). -/
def owner_entity_of (mapped : Row) (apn mailing_zip : String)
    (emails phone_ids : List String) (now : Nat) : OwnerEntity :=
  let normalized_owner_id := owner_key_of mapped mailing_zip
  { owner_id := "OWN-" ++ pyTake normalized_owner_id 8
    normalized_owner_id := normalized_owner_id
    apn := apn
    full_name :=
      pyStrip (dgetD mapped "first name" "" ++ " " ++ dgetD mapped "last name" "")
    mailing_address :=
      { street := dgetD mapped "mailing address" ""
        city := dgetD mapped "mailing city" ""
        state := pyTake (pyUpper (dgetD mapped "mailing state" "")) 2
        zip := mailing_zip }
    emails := emails
    phone_ids := phone_ids
    tags := parse_array (dgetD mapped "tags" "")
    status := pyLower (dgetD mapped "status" "unknown")
    last_updated := now }

/-- The full entity bundle of one decomposed row. -/
structure Entities where
  property : PropertyDoc
  owner : OwnerEntity
  phones : List PhoneEntity
  life_events : List LifeEventEntity
deriving DecidableEq, Repr

/-- Entity construction of `process_unified_row` after a passed gate
(main.py lines 313-509). -/
def build_entities (processed mapped : Row) (apn property_zip mailing_zip : String)
    (now : Nat) : Entities :=
  let normalized_owner_id := owner_key_of mapped mailing_zip
  let owner_id := "OWN-" ++ pyTake normalized_owner_id 8
  let phones := phone_docs_of processed mapped apn owner_id now
  let owner := owner_entity_of mapped apn mailing_zip (emails_of processed)
    (phones.map (fun p => p.phone_id)) now
  { property := property_entity_of mapped apn property_zip now
    owner := owner
    phones := phones
    life_events := life_events_of mapped owner.tags apn now }

/-- Insert of a fresh pending candidate (`db.fallback_candidates.insert_one`,
lines 267-273 etc.). -/
def insertPending (db : Store) (row : Row) (reason : String) (now : Nat) : Store :=
  { db with
    fallback_candidates := db.fallback_candidates ++
      [{ id := db.next_id
         raw_data := row
         reason := reason
         status := "pending"
         created_at := now
         source := "unified_csv"
         enrichment_attempted_at := none
         enrichment_status := none
         enrichment_method := none
         enrichment_apn := none
         enrichment_confidence := none
         processing_time := none }]
    next_id := db.next_id + 1 }

/-- The source's `process_unified_row` (main.py lines 252-512): returns the
entity bundle, or `none` after routing the row to the pending queue
(inserting exactly one candidate) or dropping it on the jurisdiction
filter. The Python-level `try/except` wrapper maps any unexpected
exception to `None` as well; the modelled body is total, so that handler
has nothing to catch here. -/
def process_unified_row (now : Nat) (row : Row) (db : Store) :
    Option Entities × Store :=
  let processed := processed_row_of row
  let mapped := mapped_row_of row
  match row_gate processed mapped with
  | .pending reason => (none, insertPending db row reason now)
  | .dropped => (none, db)
  | .ok apn property_zip mailing_zip =>
    (some (build_entities processed mapped apn property_zip mailing_zip now), db)

/-! ### Batch Coordinator (`process_unified_batch`, main.py lines 514-638) -/

/-- Life-event ops of one row (lines 586-608): each op's filter reads
`event["source_detail"]`, which raises `KeyError` on the "Tag Analysis"
events that lack the key; the per-row `try` then aborts, keeping every op
already appended for this row and discarding the rest. Returns the built
ops and whether the construction aborted. -/
def life_event_ops_of (events : List LifeEventEntity) :
    List (LifeEventEntity × String) × Bool :=
  match events with
  | [] => ([], false)
  | e :: rest =>
    match e.source_detail with
    | none => ([], true)
    | some sd =>
      let (ops, aborted) := life_event_ops_of rest
      ((e, sd) :: ops, aborted)

/-- Write ops accumulated for one batch, per collection, in append order. -/
structure BatchOps where
  prop_ops : List PropertyDoc
  owner_ops : List OwnerEntity
  phone_ops : List PhoneEntity
  life_event_ops : List (LifeEventEntity × String)
deriving Repr

/-- Op construction of one decomposed row inside the batch loop (lines
532-608): append the property op, the owner op, every phone op, then the
life-event ops until the first "Tag Analysis" event aborts the row's
`try` block with a `KeyError` — ops appended before the abort remain. -/
def row_ops_of (e : Entities) : BatchOps × Bool :=
  let (le_ops, aborted) := life_event_ops_of e.life_events
  ({ prop_ops := [e.property]
     owner_ops := [e.owner]
     phone_ops := e.phones
     life_event_ops := le_ops }, aborted)

def appendOps (a b : BatchOps) : BatchOps :=
  { prop_ops := a.prop_ops ++ b.prop_ops
    owner_ops := a.owner_ops ++ b.owner_ops
    phone_ops := a.phone_ops ++ b.phone_ops
    life_event_ops := a.life_event_ops ++ b.life_event_ops }

def emptyOps : BatchOps := ⟨[], [], [], []⟩

/-- The per-row loop of `process_unified_batch` (lines 520-610): decompose
each row (with its pending-queue side effects), then build its ops; a row
whose decomposition returns nothing contributes no ops. -/
def batch_collect (now : Nat) (rows : List Row) (db : Store) : BatchOps × Store :=
  rows.foldl (fun (acc : BatchOps × Store) row =>
    let (entities, db') := process_unified_row now row acc.2
    match entities with
    | none => (acc.1, db')
    | some e => (appendOps acc.1 (row_ops_of e).1, db')) (emptyOps, db)

/-- Bulk submission of one batch's ops (lines 611-638): one ordered
`bulk_write` per collection. `now` supplies `created_at` for life-event
inserts. -/
def apply_ops (ops : BatchOps) (db : Store) (now : Nat) : Store :=
  { db with
    properties := ops.prop_ops.foldl upsertProperty db.properties
    owners := ops.owner_ops.foldl upsertOwner db.owners
    phones := ops.phone_ops.foldl upsertPhone db.phones
    life_events := ops.life_event_ops.foldl
      (fun les esd => upsertLifeEvent les esd.1 esd.2 now) db.life_events }

/-- The source's `process_unified_batch` (main.py lines 514-638) on the
`data` fields of a batch: collect ops row by row, then submit them. -/
def process_unified_batch (now : Nat) (rows : List Row) (db : Store) : Store :=
  let (ops, db') := batch_collect now rows db
  apply_ops ops db' now

/-- The source's `move_out_of_fallback` (main.py lines 234-239): write the
resolved apn into the raw row, re-run decomposition, and only when it
produced entities re-ingest through the batch path and delete the
candidate. -/
def move_out_of_fallback (now : Nat) (apn : String) (raw_data : Row) (db : Store)
    (candidate_id : Nat) : Store :=
  let raw' := dset raw_data "apn" apn
  let (processed, db1) := process_unified_row now raw' db
  if processed.isSome then
    let db2 := process_unified_batch now [raw'] db1
    { db2 with
      fallback_candidates := db2.fallback_candidates.filter
        (fun c => c.id ≠ candidate_id) }
  else db1

/-! ### Fallback Cascade (`enrich_missing_apns`, main.py lines 893-1080)

The string-similarity oracle (`rapidfuzz.fuzz.ratio`, an external
collaborator returning a score in [0,100]) is a parameter; the two
external lookup providers (`get_parcel_number` via Selenium and
`apify_general_scrape`) are parameters delivering either a result or an
exception (`Except.error`). `retry_wrapper` retries a callable with fixed
arguments; over these deterministic models every retry returns the first
attempt's outcome, so one evaluation models the bounded retry loop. -/

/-- The source's `find_best_db_match` (main.py lines 178-192): scan every
property (all modelled documents carry `address.street`), score
`0.8 * ratio(address, street) + 0.2 * ratio(name, owner_full_name)`, and
keep the strictly-best candidate. Property documents written by this
pipeline never embed an `owner` sub-document, so `owner_full_name` is
always the empty string (lines 184-187). -/
def find_best_db_match (address name : String) (db : Store)
    (ratio : String → String → ℚ) : Option PropertyDoc × ℚ :=
  db.properties.foldl (fun best prop =>
    let addr_similarity := ratio address prop.address.street
    let owner_full_name := ""
    let name_similarity := ratio name owner_full_name
    let total_score := addr_similarity * (8 / 10) + name_similarity * (2 / 10)
    if total_score > best.2 then (some prop, total_score) else best)
    ((none : Option PropertyDoc), (0 : ℚ))

/-- The source's `standardize_address` (main.py lines 194-204). -/
def standardize_address (raw_address city state zip_code : String) : Address :=
  { street := String.mk (collapseWs (pyUpper (pyStrip raw_address)).data)
    city := if city = "" then "" else pyUpper (pyStrip city)
    state := if state = "" then "" else pyTake (pyUpper (pyStrip state)) 2
    zip := (validate_zip zip_code).getD "" }

/-- The `finally` block's candidate update (lines 1030-1043):
`update_one` on the candidate's `_id`, first match only. -/
def update_candidate_enrichment (cands : List PendingCandidate) (cid : Nat)
    (now : Nat) (status : String) (method : Option String) (apn : Option String)
    (confidence : Option ℚ) (duration : ℚ) : List PendingCandidate :=
  match cands with
  | [] => []
  | c :: cs =>
    if c.id = cid then
      { c with
        enrichment_attempted_at := some now
        enrichment_status := some status
        enrichment_method := method
        enrichment_apn := apn
        enrichment_confidence := confidence
        processing_time := some duration } :: cs
    else c :: update_candidate_enrichment cs cid now status method apn confidence duration

/-- Outcome of processing one pending candidate through the cascade. -/
structure EnrichResult where
  status : String
  method : Option String
  apn : Option String
  confidence : Option ℚ
  google_invoked : Bool
  apify_invoked : Bool
  store : Store
deriving Repr

/-- The per-candidate body of `enrich_missing_apns` (main.py lines
936-1046): address precheck, local fuzzy match accepted at
`CONFIDENCE_THRESHOLD = 80`, then the Google lookup, then the Apify
lookup when a token is configured; each success re-ingests via
`move_out_of_fallback` and short-circuits; the `finally` block records
the enrichment attempt on the (possibly already deleted) candidate. -/
def enrich_candidate (db : Store) (ratio : String → String → ℚ)
    (google : Except String (Option String)) (apify : Except String (Option String))
    (apify_configured : Bool) (now : Nat) (duration : ℚ)
    (candidate : PendingCandidate) : EnrichResult :=
  let cid := candidate.id
  let raw_data := candidate.raw_data
  let fin := fun (db' : Store) (status : String) (method : Option String)
      (apn : Option String) (confidence : Option ℚ)
      (google_invoked apify_invoked : Bool) =>
    ({ status := status, method := method, apn := apn, confidence := confidence
       google_invoked := google_invoked, apify_invoked := apify_invoked
       store := { db' with
         fallback_candidates := update_candidate_enrichment
           db'.fallback_candidates cid now status method apn confidence duration } } :
      EnrichResult)
  let raw_address := pyStrip (dgetD raw_data "property address" "")
  let city := pyStrip (dgetD raw_data "property city" "")
  let state := pyStrip (dgetD raw_data "property state" "")
  if raw_address = "" ∨ city = "" ∨ state = "" then
    fin db "error" none none none false false
  else
    let standardized := standardize_address raw_address city state
      (pyStrip (dgetD raw_data "property zip" ""))
    let owner_name :=
      pyStrip (dgetD raw_data "first name" "" ++ " " ++ dgetD raw_data "last name" "")
    let local_match := find_best_db_match standardized.street owner_name db ratio
    let confidence := local_match.2
    if confidence ≥ 80 then
      match local_match.1 with
      | some m =>
        let db' := move_out_of_fallback now m.apn raw_data db cid
        fin db' "enriched_via_local_db" (some "local_db") (some m.apn)
          (some confidence) false false
      | none =>
        fin db "error" none none (some confidence) false false
    else
      match google with
      | .ok (some apn) =>
        if apn ≠ "" then
          let db' := move_out_of_fallback now apn raw_data db cid
          fin db' "enriched_via_google" (some "google") (some apn)
            (some confidence) true false
        else
          if apify_configured then
            match apify with
            | .ok (some apn2) =>
              if apn2 ≠ "" then
                let db' := move_out_of_fallback now apn2 raw_data db cid
                fin db' "enriched_via_apify" (some "apify") (some apn2)
                  (some confidence) true true
              else fin db "failed" none none (some confidence) true true
            | .ok none => fin db "failed" none none (some confidence) true true
            | .error _ => fin db "failed" none none (some confidence) true true
          else fin db "failed" none none (some confidence) true false
      | .ok none =>
        if apify_configured then
          match apify with
          | .ok (some apn2) =>
            if apn2 ≠ "" then
              let db' := move_out_of_fallback now apn2 raw_data db cid
              fin db' "enriched_via_apify" (some "apify") (some apn2)
                (some confidence) true true
            else fin db "failed" none none (some confidence) true true
          | .ok none => fin db "failed" none none (some confidence) true true
          | .error _ => fin db "failed" none none (some confidence) true true
        else fin db "failed" none none (some confidence) true false
      | .error _ =>
        if apify_configured then
          match apify with
          | .ok (some apn2) =>
            if apn2 ≠ "" then
              let db' := move_out_of_fallback now apn2 raw_data db cid
              fin db' "enriched_via_apify" (some "apify") (some apn2)
                (some confidence) true true
            else fin db "failed" none none (some confidence) true true
          | .ok none => fin db "failed" none none (some confidence) true true
          | .error _ => fin db "failed" none none (some confidence) true true
        else fin db "failed" none none (some confidence) true false

/-! ### Predicates used by the verification statements -/

/-- Adjacent-pair invariant: `R` holds of every pair of neighbouring
chars. -/
def adjOK (R : Char → Char → Bool) : List Char → Bool
  | [] => true
  | [_] => true
  | a :: b :: t => R a b && adjOK R (b :: t)

/-- No two adjacent spaces. -/
def noDoubleSpace (a b : Char) : Bool := !(a = ' ' && b = ' ')

/-- No ASCII letter immediately followed by a digit. -/
def noLetterDigit (a b : Char) : Bool := !(isLetterAZ a && b.isDigit)

/-- ASCII upper-case letter. -/
def isUpperAZ (c : Char) : Bool := 65 ≤ c.toNat && c.toNat ≤ 90

/-- All accumulate-into-set fields of every stored document hold no
duplicate values (§4.5's set-union semantics). -/
def storeSetsNodup (db : Store) : Prop :=
  (∀ o ∈ db.owners, o.emails.Nodup ∧ o.tags.Nodup ∧ o.phone_ids.Nodup) ∧
  (∀ ph ∈ db.phones, ph.linked_apns.Nodup ∧ ph.linked_owners.Nodup) ∧
  (∀ le ∈ db.life_events, le.related_tags.Nodup)

/-! ## Helper lemmas -/

theorem pyWs_not_digit {c : Char} (h : pyWs c = true) : c.isDigit = false := by
  simp only [pyWs, Bool.or_eq_true, decide_eq_true_eq] at h
  rcases h with (((((h | h) | h) | h) | h) | h) <;> subst h <;> decide

theorem filter_isDigit_dropWhile_pyWs (l : List Char) :
    (l.dropWhile pyWs).filter Char.isDigit = l.filter Char.isDigit := by
  induction l with
  | nil => rfl
  | cons c t ih =>
    rw [List.dropWhile_cons]
    by_cases h : pyWs c = true
    · rw [if_pos h, ih, List.filter_cons, pyWs_not_digit h]
      simp
    · rw [if_neg h]

theorem filter_isDigit_trimL (s : List Char) :
    (trimL s).filter Char.isDigit = s.filter Char.isDigit := by
  unfold trimL
  rw [List.filter_reverse, filter_isDigit_dropWhile_pyWs, List.filter_reverse,
    filter_isDigit_dropWhile_pyWs, List.reverse_reverse]

theorem validate_zip_some {s w : String} (h : validate_zip s = some w) :
    w.data = s.data.filter Char.isDigit ∧ (s.data.filter Char.isDigit).length = 5 := by
  simp only [validate_zip] at h
  split at h
  · next hl =>
    cases h
    rw [filter_isDigit_trimL] at hl
    exact ⟨filter_isDigit_trimL s.data, hl⟩
  · exact absurd h (by simp)

/-! ## Claim C7 — `clean_apn` totality and output shape -/

/-- C7 (corrected): `clean_apn` is deterministic and total — it is a Lean
function, returning for every string either `none` or an all-digit
identifier of length at least 10 (zero-padded up to the canonical width
10, but longer digit strings are kept at their full length, so the output
is not fixed-width); the placeholder tokens `n/a`, `none`, `nan` and the
empty string all map to `none`. -/
theorem clean_apn_total_shape :
    (∀ s : String, clean_apn s = none ∨
      ∃ t, clean_apn s = some t ∧ t.data.all Char.isDigit = true ∧
        10 ≤ t.data.length) ∧
    clean_apn "n/a" = none ∧ clean_apn "none" = none ∧
    clean_apn "nan" = none ∧ clean_apn "" = none := by
  refine ⟨fun s => ?_, by decide, by decide, by decide, by decide⟩
  simp only [clean_apn]
  by_cases h : ((trimL s.data).filter Char.isDigit).isEmpty
  · left
    simp [h]
  · right
    refine ⟨String.mk (List.replicate (10 - ((trimL s.data).filter Char.isDigit).length) '0' ++
      (trimL s.data).filter Char.isDigit), by simp [h], ?_, ?_⟩
    · rw [List.all_append, Bool.and_eq_true]
      refine ⟨?_, ?_⟩
      · rw [List.all_eq_true]
        intro c hc
        rw [List.eq_of_mem_replicate hc]
        decide
      · rw [List.all_eq_true]
        intro c hc
        exact List.of_mem_filter hc
    · simp only [List.length_append, List.length_replicate]
      omega

/-- C7 counterexample to fixed width: an 11-digit input keeps its 11
digits while a 1-digit input is padded to 10, so `clean_apn`'s non-null
outputs do not share one fixed width. -/
theorem clean_apn_width_counterexample :
    clean_apn "12345678901" = some "12345678901" ∧
    clean_apn "1" = some "0000000001" ∧
    ("12345678901" : String).length = 11 ∧
    ("0000000001" : String).length = 10 := by decide

/-! ## Claim C9 — `extract_best_zip` output shape -/

/-- C9 (corrected): every non-null result of `extract_best_zip` carries
exactly five digits after stripping non-digits; the direct branch returns
the cleaned five digits themselves, but the hyphen branch returns the raw
prefix, which may contain non-digit characters. -/
theorem extract_best_zip_digit_shape (row : Row) (keys : List String) (z : String)
    (h : extract_best_zip row keys = some z) :
    (z.data.filter Char.isDigit).length = 5 := by
  induction keys with
  | nil => simp [extract_best_zip] at h
  | cons key rest ih =>
    rw [extract_best_zip] at h
    cases hv : dget row key with
    | none =>
      rw [hv] at h
      exact ih h
    | some zip_val =>
      rw [hv] at h
      dsimp only at h
      by_cases hz : zip_val = ""
      · rw [if_pos hz] at h
        exact ih h
      · rw [if_neg hz] at h
        cases hvz : validate_zip zip_val with
        | some direct_clean =>
          rw [hvz] at h
          cases h
          obtain ⟨hd, hl⟩ := validate_zip_some hvz
          have hall : z.data.all Char.isDigit = true := by
            rw [hd, List.all_eq_true]
            intro c hc
            exact List.of_mem_filter hc
          rw [List.filter_eq_self.mpr (fun c hc => (List.all_eq_true.mp hall) c hc)]
          rw [hd]
          exact hl
        | none =>
          rw [hvz] at h
          by_cases hh : zip_val.data.contains '-'
          · rw [if_pos hh] at h
            cases hvb : validate_zip (splitHyphenHead zip_val) with
            | some w =>
              rw [hvb] at h
              cases h
              exact (validate_zip_some hvb).2
            | none =>
              rw [hvb] at h
              exact ih h
          · rw [if_neg hh] at h
            exact ih h

/-- C9 witness: a plain five-digit zip is extracted and satisfies the
digit-shape bound. -/
theorem extract_best_zip_digit_shape_witness :
    extract_best_zip [("property zip", "98001")] ["property zip"] = some "98001" ∧
    ("98001".data.filter Char.isDigit).length = 5 :=
  ⟨by decide,
   extract_best_zip_digit_shape [("property zip", "98001")] ["property zip"] "98001"
    (by decide)⟩

/-- C9 counterexample: a spaced ZIP+4 value returns the raw hyphen prefix
`"98 001"`, which is six characters long and not all digits, refuting
"returns … a string of exactly 5 digits". -/
theorem extract_best_zip_counterexample :
    extract_best_zip [("property zip", "98 001-1234")] ["property zip"] =
      some "98 001" ∧
    ("98 001" : String).length = 6 ∧
    ("98 001".data.all Char.isDigit) = false := by decide

/-! ## Claim C4 — missing-identifier routing -/

/-- C4 (confirmed): a row whose mapped `apn` value is blank makes
`process_unified_row` insert exactly one pending candidate, with reason
`"missing_apn"` and status `"pending"`, holding the original raw row; the
entity collections are untouched and the batch path submits no write for
the row. -/
theorem missing_apn_routing (now : Nat) (row : Row) (db : Store)
    (h : pyStrip (dgetD (mapped_row_of row) "apn" "") = "") :
    process_unified_row now row db = (none, insertPending db row "missing_apn" now) ∧
    (insertPending db row "missing_apn" now).properties = db.properties ∧
    (insertPending db row "missing_apn" now).owners = db.owners ∧
    (insertPending db row "missing_apn" now).phones = db.phones ∧
    (insertPending db row "missing_apn" now).life_events = db.life_events ∧
    (∃ c, (insertPending db row "missing_apn" now).fallback_candidates =
      db.fallback_candidates ++ [c] ∧ c.raw_data = row ∧
      c.reason = "missing_apn" ∧ c.status = "pending") ∧
    process_unified_batch now [row] db = insertPending db row "missing_apn" now := by
  have hg : row_gate (processed_row_of row) (mapped_row_of row) =
      .pending "missing_apn" := by
    simp only [row_gate]
    rw [if_pos (Or.inr h)]
  have hrow : process_unified_row now row db =
      (none, insertPending db row "missing_apn" now) := by
    simp only [process_unified_row, hg]
  refine ⟨hrow, rfl, rfl, rfl, rfl, ⟨_, rfl, rfl, rfl, rfl⟩, ?_⟩
  simp only [process_unified_batch, batch_collect, List.foldl_cons, List.foldl_nil,
    hrow, apply_ops]
  rfl

/-- C4 witness: the routing theorem applied to a concrete blank-apn row. -/
theorem missing_apn_routing_witness :
    pyStrip (dgetD (mapped_row_of [("apn", ""), ("property address", "1 Main St")])
      "apn" "") = "" ∧
    process_unified_row 0 [("apn", ""), ("property address", "1 Main St")] emptyStore =
      (none, insertPending emptyStore [("apn", ""), ("property address", "1 Main St")]
        "missing_apn" 0) :=
  ⟨by decide, (missing_apn_routing 0 _ emptyStore (by decide)).1⟩

/-! ## Claim C5 — jurisdiction filter -/

/-- C5 counterexample: the claim quantifies over every row whose property
state is `"CA"`, but the apn and zip validations run before the
jurisdiction filter, so a `"CA"` row with a blank apn IS routed to
pending — it is not dropped silently. -/
theorem jurisdiction_filter_counterexample :
    dgetD (mapped_row_of [("apn", ""), ("property state", "CA")])
      "property state" "" = "CA" ∧
    rowGate [("apn", ""), ("property state", "CA")] = .pending "missing_apn" ∧
    (process_unified_row 0 [("apn", ""), ("property state", "CA")]
      emptyStore).2.fallback_candidates.length = 1 := by decide

/-- C5 (corrected): a row that passes the apn and zip validations and whose
property state does not match `"WA"` (case-insensitively) — e.g. `"CA"` —
is dropped silently: no entity write, no pending route, no error. -/
theorem jurisdiction_filter_drops_validated_rows (now : Nat) (row : Row) (db : Store)
    (h1 : ¬(dgetD (mapped_row_of row) "apn" "" = "" ∨
      pyStrip (dgetD (mapped_row_of row) "apn" "") = ""))
    (h2 : (clean_apn (dgetD (mapped_row_of row) "apn" "")).isSome = true)
    (h3 : (extract_best_zip (processed_row_of row)
      ["property zip 5", "property zip"]).isSome = true)
    (h4 : (extract_best_zip (processed_row_of row)
      ["mailing zip 5", "mailing zip"]).isSome = true)
    (h5 : pyUpper (pyStrip (dgetD (mapped_row_of row) "property state" "")) ≠ "WA") :
    process_unified_row now row db = (none, db) ∧
    process_unified_batch now [row] db = db := by
  have hg : row_gate (processed_row_of row) (mapped_row_of row) = .dropped := by
    obtain ⟨a, ha⟩ := Option.isSome_iff_exists.mp h2
    obtain ⟨p, hp⟩ := Option.isSome_iff_exists.mp h3
    obtain ⟨m, hm⟩ := Option.isSome_iff_exists.mp h4
    simp only [row_gate, if_neg h1, ha, hp, hm]
    rw [if_pos h5]
  have hrow : process_unified_row now row db = (none, db) := by
    simp only [process_unified_row, hg]
  refine ⟨hrow, ?_⟩
  simp only [process_unified_batch, batch_collect, List.foldl_cons, List.foldl_nil,
    hrow, apply_ops]
  rfl

/-- C5 witness: a fully validated `"CA"` row is dropped without any store
change. -/
theorem jurisdiction_filter_witness :
    process_unified_row 0 [("apn", "123"), ("property state", "CA"),
      ("property zip", "98001"), ("mailing zip", "98001")] emptyStore =
      (none, emptyStore) :=
  (jurisdiction_filter_drops_validated_rows 0 _ emptyStore (by decide) (by decide)
    (by decide) (by decide) (by decide)).1

/-! ## Claim C10 — pending candidates are deleted only on successful
re-decomposition -/

theorem fallback_mem_process_unified_row (now : Nat) (row : Row) (db : Store)
    {c : PendingCandidate} (h : c ∈ db.fallback_candidates) :
    c ∈ (process_unified_row now row db).2.fallback_candidates := by
  cases hg : row_gate (processed_row_of row) (mapped_row_of row) with
  | pending reason =>
    simp only [process_unified_row, hg, insertPending]
    exact List.mem_append_left _ h
  | dropped => simpa only [process_unified_row, hg] using h
  | ok a p m => simpa only [process_unified_row, hg] using h

/-- C10 (confirmed): `move_out_of_fallback` writes the resolved apn into
the raw row and re-runs decomposition; a pending candidate can only
disappear from the queue when that re-decomposition succeeded — when the
repaired row still fails decomposition, every existing candidate (in
particular the one being enriched) survives. -/
theorem pending_deleted_only_on_success (now : Nat) (apn : String) (raw_data : Row)
    (db : Store) (candidate_id : Nat) (c : PendingCandidate)
    (h1 : c ∈ db.fallback_candidates)
    (h2 : c ∉ (move_out_of_fallback now apn raw_data db
      candidate_id).fallback_candidates) :
    (process_unified_row now (dset raw_data "apn" apn) db).1.isSome = true := by
  by_contra hn
  apply h2
  have hnone : (process_unified_row now (dset raw_data "apn" apn) db).1 = none :=
    Option.not_isSome_iff_eq_none.mp (fun hs => hn hs)
  rcases hp : process_unified_row now (dset raw_data "apn" apn) db with ⟨o, db1⟩
  have ho : o = none := by
    rw [← hnone, hp]
  subst ho
  simp only [move_out_of_fallback, hp, Option.isSome_none, Bool.false_eq_true,
    if_false]
  have hm := fallback_mem_process_unified_row now (dset raw_data "apn" apn) db h1
  rw [hp] at hm
  exact hm

/-- C10 witness: a concrete candidate is removed by a successful
resolution, and the theorem certifies that the re-decomposition indeed
succeeded there. -/
theorem pending_deleted_only_on_success_witness :
    (⟨0, [], "missing_apn", "pending", 0, "unified_csv",
        none, none, none, none, none, none⟩ : PendingCandidate) ∉
      (move_out_of_fallback 0 "123"
        [("first name", "Jane"), ("last name", "Doe"),
         ("property address", "1 Main St"), ("property state", "WA"),
         ("property zip", "98001"), ("mailing zip", "98001")]
        ⟨[], [], [], [],
         [⟨0, [], "missing_apn", "pending", 0, "unified_csv",
           none, none, none, none, none, none⟩], 1⟩
        0).fallback_candidates ∧
    (process_unified_row 0
      (dset [("first name", "Jane"), ("last name", "Doe"),
         ("property address", "1 Main St"), ("property state", "WA"),
         ("property zip", "98001"), ("mailing zip", "98001")] "apn" "123")
      ⟨[], [], [], [],
       [⟨0, [], "missing_apn", "pending", 0, "unified_csv",
         none, none, none, none, none, none⟩], 1⟩).1.isSome = true :=
  ⟨by decide,
   pending_deleted_only_on_success 0 "123"
    [("first name", "Jane"), ("last name", "Doe"),
     ("property address", "1 Main St"), ("property state", "WA"),
     ("property zip", "98001"), ("mailing zip", "98001")]
    ⟨[], [], [], [],
     [⟨0, [], "missing_apn", "pending", 0, "unified_csv",
       none, none, none, none, none, none⟩], 1⟩
    0
    ⟨0, [], "missing_apn", "pending", 0, "unified_csv",
     none, none, none, none, none, none⟩
    (by decide) (by decide)⟩

/-! ## Claim C2 — failure handling of decomposition and op construction -/

theorem upsertProperty_mem_key (props : List PropertyDoc) (e : PropertyDoc) :
    ∃ d ∈ upsertProperty props e, d.apn = e.apn := by
  induction props with
  | nil => exact ⟨_, List.mem_singleton_self _, rfl⟩
  | cons d0 ds ih =>
    by_cases h : d0.apn = e.apn
    · simp only [upsertProperty, if_pos h]
      exact ⟨_, List.mem_cons_self _ _, rfl⟩
    · obtain ⟨d, hd, hda⟩ := ih
      refine ⟨d, ?_, hda⟩
      simp only [upsertProperty, if_neg h]
      exact List.mem_cons_of_mem _ hd

/-- C2 counterexample: a row carrying the owner tag `"high equity"` builds a
`SALE_REASON` "Tag Analysis" life event without a `source_detail` key, so
persistence-operation construction raises `KeyError` mid-row (`row_ops_of`
reports the abort) — yet the row's property and owner writes, appended
before the failure, ARE submitted to the store, contradicting "nothing
persisted". -/
theorem batch_partial_write_on_op_error_counterexample :
    ((process_unified_row 0
        [("apn", "123"), ("first name", "Jane"), ("last name", "Doe"),
         ("property address", "1 Main St"), ("property state", "WA"),
         ("property zip", "98001"), ("mailing zip", "98001"),
         ("tags", "high equity")] emptyStore).1.map
      (fun e => (row_ops_of e).2)) = some true ∧
    (process_unified_batch 0
      [[("apn", "123"), ("first name", "Jane"), ("last name", "Doe"),
        ("property address", "1 Main St"), ("property state", "WA"),
        ("property zip", "98001"), ("mailing zip", "98001"),
        ("tags", "high equity")]] emptyStore).properties.length = 1 ∧
    (process_unified_batch 0
      [[("apn", "123"), ("first name", "Jane"), ("last name", "Doe"),
        ("property address", "1 Main St"), ("property state", "WA"),
        ("property zip", "98001"), ("mailing zip", "98001"),
        ("tags", "high equity")]] emptyStore).owners.length = 1 := by decide

/-- C2 (corrected): an unexpected exception during entity building (steps
6-10, inside `process_unified_row`'s handler, which yields `None`) skips
the row with nothing persisted — the batch leaves every collection as the
row-level routing left it. An exception during persistence-operation
construction in the batch loop, however, is NOT atomic: the ops already
appended for the row stay submitted, so a row whose life-event op
construction aborts still gets its property write (a document under its
apn exists afterwards). -/
theorem row_skip_and_partial_op_semantics :
    (∀ (now : Nat) (row : Row) (db : Store),
      (process_unified_row now row db).1 = none →
      process_unified_batch now [row] db = (process_unified_row now row db).2) ∧
    (∀ (now : Nat) (row : Row) (db : Store) (a p m : String),
      rowGate row = .ok a p m →
      ((process_unified_row now row db).1.map (fun e => (row_ops_of e).2)) =
        some true →
      ∃ d ∈ (process_unified_batch now [row] db).properties, d.apn = a) := by
  constructor
  · intro now row db h
    rcases hp : process_unified_row now row db with ⟨o, db'⟩
    have ho : o = none := by rw [← h, hp]
    subst ho
    simp only [process_unified_batch, batch_collect, List.foldl_cons,
      List.foldl_nil, hp, apply_ops]
    rfl
  · intro now row db a p m hg _
    have hrow : process_unified_row now row db =
        (some (build_entities (processed_row_of row) (mapped_row_of row)
          a p m now), db) := by
      simp only [process_unified_row]
      rw [show row_gate (processed_row_of row) (mapped_row_of row) = .ok a p m
        from hg]
    have hapn : (build_entities (processed_row_of row) (mapped_row_of row)
        a p m now).property.apn = a := rfl
    simp only [process_unified_batch, batch_collect, List.foldl_cons,
      List.foldl_nil, hrow, apply_ops, row_ops_of, appendOps, emptyOps,
      List.nil_append, List.foldl_cons]
    rw [← hapn]
    exact upsertProperty_mem_key db.properties _

/-- C2 witness: the amended theorem applied at concrete inputs — a
blank-apn row for the skip half, and the "high equity" row for the
partial-op half. -/
theorem row_skip_and_partial_op_semantics_witness :
    (process_unified_batch 0 [[("apn", "")]] emptyStore =
      (process_unified_row 0 [("apn", "")] emptyStore).2) ∧
    (∃ d ∈ (process_unified_batch 0
      [[("apn", "123"), ("first name", "Jane"), ("last name", "Doe"),
        ("property address", "1 Main St"), ("property state", "WA"),
        ("property zip", "98001"), ("mailing zip", "98001"),
        ("tags", "high equity")]] emptyStore).properties,
      d.apn = "0000000123") :=
  ⟨row_skip_and_partial_op_semantics.1 0 [("apn", "")] emptyStore (by decide),
   row_skip_and_partial_op_semantics.2 0
    [("apn", "123"), ("first name", "Jane"), ("last name", "Doe"),
     ("property address", "1 Main St"), ("property state", "WA"),
     ("property zip", "98001"), ("mailing zip", "98001"),
     ("tags", "high equity")] emptyStore "0000000123" "98001" "98001"
    (by decide) (by decide)⟩

/-! ## Claim C6 — `sale_history` under the Property merge -/

/-- C6 counterexample: a stored property with two sale-history entries is
re-ingested with a parseable sale; the `$set` of the whole property
document REPLACES `sale_history` with the single new entry — the existing
entries are not preserved, refuting append-only accumulation. -/
theorem sale_history_replace_counterexample :
    ((process_unified_batch 0
      [[("apn", "123"), ("property address", "1 Main St"),
        ("property state", "WA"), ("property zip", "98001"),
        ("mailing zip", "98001"),
        ("last sold", "2020-01-15 00:00:00"), ("last sale price", "100000")]]
      ⟨[⟨"0000000123", ⟨"", "", "", ""⟩, ⟨none, none, none, none⟩,
         ⟨none, none⟩, 0,
         some [⟨"SALE", "1998-05-01 00:00:00", none, "Property sale recorded", 0⟩,
               ⟨"SALE", "2005-07-01 00:00:00", none, "Property sale recorded", 0⟩],
         none⟩],
       [], [], [], [], 0⟩).properties.map
      (fun d => (d.sale_history.getD []).map (fun h => h.date))) =
      [["2020-01-15 00:00:00"]] := by decide

theorem upsertProperty_sale_replaced (props : List PropertyDoc) (e : PropertyDoc)
    (hnodup : (props.map (fun d => d.apn)).Nodup) (hist : List SaleHistoryEntry)
    (hsale : e.sale_history = some hist) :
    ∀ d ∈ upsertProperty props e, d.apn = e.apn → d.sale_history = some hist := by
  induction props with
  | nil =>
    intro d hd _
    rw [List.mem_singleton.mp hd, hsale]
  | cons d0 ds ih =>
    intro d hd ha
    by_cases h : d0.apn = e.apn
    · simp only [upsertProperty, if_pos h] at hd
      rcases List.mem_cons.mp hd with rfl | hmem
      · simp [hsale]
      · exfalso
        have hm : d.apn ∈ ds.map (fun x => x.apn) := List.mem_map_of_mem _ hmem
        rw [ha, ← h] at hm
        exact (List.nodup_cons.mp hnodup).1 hm
    · simp only [upsertProperty, if_neg h] at hd
      rcases List.mem_cons.mp hd with rfl | hmem
      · exact absurd ha h
      · exact ih (List.nodup_cons.mp hnodup).2 d hmem ha

/-- C6 (corrected): the Property upsert does not append — when the
re-ingested row carries a parseable sale, the stored document's
`sale_history` afterwards equals exactly the single freshly built entry
list, whatever it held before (append-only preservation fails; existing
entries survive only when the new row has no parseable sale, because the
`$set` document then lacks the key). -/
theorem sale_history_overwritten (now : Nat) (row : Row) (db : Store)
    (a p m : String) (hg : rowGate row = .ok a p m)
    (hnodup : (db.properties.map (fun d => d.apn)).Nodup)
    (hist : List SaleHistoryEntry)
    (hsale : (build_entities (processed_row_of row) (mapped_row_of row) a p m
      now).property.sale_history = some hist) :
    ∀ d ∈ (process_unified_batch now [row] db).properties,
      d.apn = a → d.sale_history = some hist := by
  have hrow : process_unified_row now row db =
      (some (build_entities (processed_row_of row) (mapped_row_of row)
        a p m now), db) := by
    simp only [process_unified_row]
    rw [show row_gate (processed_row_of row) (mapped_row_of row) = .ok a p m
      from hg]
  have hapn : (build_entities (processed_row_of row) (mapped_row_of row)
      a p m now).property.apn = a := rfl
  simp only [process_unified_batch, batch_collect, List.foldl_cons,
    List.foldl_nil, hrow, apply_ops, row_ops_of, appendOps, emptyOps,
    List.nil_append, List.foldl_cons]
  intro d hd ha
  exact upsertProperty_sale_replaced db.properties _ hnodup hist hsale d hd
    (ha.trans hapn.symm)

/-- C6 witness: the overwrite theorem applied to the concrete store holding
two prior entries and to the concrete surviving document — its history is
exactly the one new entry. -/
theorem sale_history_overwritten_witness :
    (⟨"0000000123", ⟨"1 Main St", "", "WA", "98001"⟩, ⟨none, none, none, none⟩,
      ⟨none, some ⟨100000, 0⟩⟩, 0,
      some [⟨"SALE", "2020-01-15 00:00:00", some ⟨100000, 0⟩,
        "Property sale recorded", 0⟩],
      some ⟨"2020-01-15 00:00:00", some ⟨100000, 0⟩⟩⟩ :
        PropertyDoc).sale_history =
      some [⟨"SALE", "2020-01-15 00:00:00", some ⟨100000, 0⟩,
        "Property sale recorded", 0⟩] :=
  sale_history_overwritten 0
    [("apn", "123"), ("property address", "1 Main St"),
     ("property state", "WA"), ("property zip", "98001"),
     ("mailing zip", "98001"),
     ("last sold", "2020-01-15 00:00:00"), ("last sale price", "100000")]
    ⟨[⟨"0000000123", ⟨"", "", "", ""⟩, ⟨none, none, none, none⟩,
       ⟨none, none⟩, 0,
       some [⟨"SALE", "1998-05-01 00:00:00", none, "Property sale recorded", 0⟩,
             ⟨"SALE", "2005-07-01 00:00:00", none, "Property sale recorded", 0⟩],
       none⟩],
     [], [], [], [], 0⟩
    "0000000123" "98001" "98001" (by decide) (by decide) _ (by decide)
    ⟨"0000000123", ⟨"1 Main St", "", "WA", "98001"⟩, ⟨none, none, none, none⟩,
      ⟨none, some ⟨100000, 0⟩⟩, 0,
      some [⟨"SALE", "2020-01-15 00:00:00", some ⟨100000, 0⟩,
        "Property sale recorded", 0⟩],
      some ⟨"2020-01-15 00:00:00", some ⟨100000, 0⟩⟩⟩
    (by decide) (by decide)

/-! ## Claim C1 — idempotent ingestion -/

theorem addToSet_cons (l : List String) (y : String) (ys : List String) :
    addToSet l (y :: ys) = addToSet (if y ∈ l then l else l ++ [y]) ys := rfl

theorem addToSet_nodup (xs : List String) :
    ∀ l : List String, l.Nodup → (addToSet l xs).Nodup := by
  induction xs with
  | nil => intro l h; exact h
  | cons y ys ih =>
    intro l h
    rw [addToSet_cons]
    by_cases hy : y ∈ l
    · rw [if_pos hy]
      exact ih l h
    · rw [if_neg hy]
      refine ih _ ?_
      rw [List.nodup_append]
      exact ⟨h, List.nodup_singleton y, by simp [List.disjoint_singleton, hy]⟩

theorem upsertProperty_pair (d0 e : PropertyDoc) (h : d0.apn = e.apn) :
    ∃ d, upsertProperty [d0] e = [d] ∧ d.apn = e.apn := by
  simp only [upsertProperty, if_pos h]
  exact ⟨_, rfl, rfl⟩

theorem upsertOwner_twice_key (e1 e2 : OwnerEntity)
    (h : e1.normalized_owner_id = e2.normalized_owner_id) :
    ∃ o, upsertOwner (upsertOwner [] e1) e2 = [o] ∧
      o.normalized_owner_id = e1.normalized_owner_id := by
  simp only [upsertOwner]
  rw [if_pos (show e1.normalized_owner_id = e2.normalized_owner_id from h)]
  exact ⟨_, rfl, rfl⟩

theorem upsertOwner_sets_nodup (owners : List OwnerDoc) (e : OwnerEntity)
    (h : ∀ o ∈ owners, o.emails.Nodup ∧ o.tags.Nodup ∧ o.phone_ids.Nodup) :
    ∀ o ∈ upsertOwner owners e,
      o.emails.Nodup ∧ o.tags.Nodup ∧ o.phone_ids.Nodup := by
  induction owners with
  | nil =>
    intro o ho
    rw [List.mem_singleton.mp ho]
    refine ⟨addToSet_nodup _ _ List.nodup_nil, addToSet_nodup _ _ List.nodup_nil, ?_⟩
    by_cases he : e.phone_ids.isEmpty
    · simp only [if_pos he]
      exact List.nodup_nil
    · simp only [if_neg he]
      exact addToSet_nodup _ _ List.nodup_nil
  | cons d ds ih =>
    intro o ho
    simp only [upsertOwner] at ho
    split at ho
    · rcases List.mem_cons.mp ho with rfl | hmem
      · obtain ⟨h1, h2, h3⟩ := h d (List.mem_cons_self _ _)
        refine ⟨addToSet_nodup _ _ h1, addToSet_nodup _ _ h2, ?_⟩
        by_cases he : e.phone_ids.isEmpty
        · simp only [if_pos he]
          exact h3
        · simp only [if_neg he]
          exact addToSet_nodup _ _ h3
      · exact h o (List.mem_cons_of_mem _ hmem)
    · rcases List.mem_cons.mp ho with rfl | hmem
      · exact h o (List.mem_cons_self _ _)
      · exact ih (fun x hx => h x (List.mem_cons_of_mem _ hx)) o hmem

theorem upsertPhone_sets_nodup (phones : List PhoneDoc) (e : PhoneEntity)
    (h : ∀ d ∈ phones, d.linked_apns.Nodup ∧ d.linked_owners.Nodup) :
    ∀ d ∈ upsertPhone phones e,
      d.linked_apns.Nodup ∧ d.linked_owners.Nodup := by
  induction phones with
  | nil =>
    intro d hd
    rw [List.mem_singleton.mp hd]
    exact ⟨addToSet_nodup _ _ List.nodup_nil, addToSet_nodup _ _ List.nodup_nil⟩
  | cons d0 ds ih =>
    intro d hd
    simp only [upsertPhone] at hd
    split at hd
    · rcases List.mem_cons.mp hd with rfl | hmem
      · obtain ⟨h1, h2⟩ := h d0 (List.mem_cons_self _ _)
        exact ⟨addToSet_nodup _ _ h1, addToSet_nodup _ _ h2⟩
      · exact h d (List.mem_cons_of_mem _ hmem)
    · rcases List.mem_cons.mp hd with rfl | hmem
      · exact h d (List.mem_cons_self _ _)
      · exact ih (fun x hx => h x (List.mem_cons_of_mem _ hx)) d hmem

theorem upsertLifeEvent_tags_nodup (les : List LifeEventDoc) (e : LifeEventEntity)
    (sd : String) (now : Nat) (h : ∀ d ∈ les, d.related_tags.Nodup) :
    ∀ d ∈ upsertLifeEvent les e sd now, d.related_tags.Nodup := by
  induction les with
  | nil =>
    intro d hd
    rw [List.mem_singleton.mp hd]
    exact addToSet_nodup _ _ List.nodup_nil
  | cons d0 ds ih =>
    intro d hd
    simp only [upsertLifeEvent] at hd
    split at hd
    · rcases List.mem_cons.mp hd with rfl | hmem
      · exact addToSet_nodup _ _ (h d0 (List.mem_cons_self _ _))
      · exact h d (List.mem_cons_of_mem _ hmem)
    · rcases List.mem_cons.mp hd with rfl | hmem
      · exact h d (List.mem_cons_self _ _)
      · exact ih (fun x hx => h x (List.mem_cons_of_mem _ hx)) d hmem

theorem foldl_upsertOwner_sets_nodup (ops : List OwnerEntity) :
    ∀ owners : List OwnerDoc,
      (∀ o ∈ owners, o.emails.Nodup ∧ o.tags.Nodup ∧ o.phone_ids.Nodup) →
      ∀ o ∈ ops.foldl upsertOwner owners,
        o.emails.Nodup ∧ o.tags.Nodup ∧ o.phone_ids.Nodup := by
  induction ops with
  | nil => intro owners h; exact h
  | cons e es ih =>
    intro owners h
    exact ih _ (upsertOwner_sets_nodup owners e h)

theorem foldl_upsertPhone_sets_nodup (ops : List PhoneEntity) :
    ∀ phones : List PhoneDoc,
      (∀ d ∈ phones, d.linked_apns.Nodup ∧ d.linked_owners.Nodup) →
      ∀ d ∈ ops.foldl upsertPhone phones,
        d.linked_apns.Nodup ∧ d.linked_owners.Nodup := by
  induction ops with
  | nil => intro phones h; exact h
  | cons e es ih =>
    intro phones h
    exact ih _ (upsertPhone_sets_nodup phones e h)

theorem foldl_upsertLifeEvent_tags_nodup (now : Nat)
    (ops : List (LifeEventEntity × String)) :
    ∀ les : List LifeEventDoc, (∀ d ∈ les, d.related_tags.Nodup) →
      ∀ d ∈ ops.foldl (fun acc esd => upsertLifeEvent acc esd.1 esd.2 now) les,
        d.related_tags.Nodup := by
  induction ops with
  | nil => intro les h; exact h
  | cons e es ih =>
    intro les h
    exact ih _ (upsertLifeEvent_tags_nodup les e.1 e.2 now h)

theorem apply_ops_sets_nodup (ops : BatchOps) (db : Store) (now : Nat)
    (h : storeSetsNodup db) : storeSetsNodup (apply_ops ops db now) :=
  ⟨foldl_upsertOwner_sets_nodup ops.owner_ops db.owners h.1,
   foldl_upsertPhone_sets_nodup ops.phone_ops db.phones h.2.1,
   foldl_upsertLifeEvent_tags_nodup now ops.life_event_ops db.life_events h.2.2⟩

/-- C1 (confirmed): re-ingesting the same valid row (at any two ticks)
leaves exactly one property document — carrying the row's apn — and
exactly one owner document — keyed by the row's owner hash — in the
store, and every accumulated set field (owner emails/tags/phone_ids,
phone linked_apns/linked_owners, life-event related_tags) of every stored
document holds no duplicate values. -/
theorem ingestion_idempotent (t1 t2 : Nat) (row : Row) (a p m : String)
    (hg : rowGate row = .ok a p m) :
    (∃ d, (process_unified_batch t2 [row] (process_unified_batch t1 [row]
      emptyStore)).properties = [d] ∧ d.apn = a) ∧
    (∃ o, (process_unified_batch t2 [row] (process_unified_batch t1 [row]
      emptyStore)).owners = [o] ∧
      o.normalized_owner_id = owner_key_of (mapped_row_of row) m) ∧
    storeSetsNodup (process_unified_batch t2 [row] (process_unified_batch t1 [row]
      emptyStore)) := by
  have hg' : row_gate (processed_row_of row) (mapped_row_of row) = .ok a p m := hg
  have hbatch : ∀ (t : Nat) (db : Store), process_unified_batch t [row] db =
      apply_ops (row_ops_of (build_entities (processed_row_of row)
        (mapped_row_of row) a p m t)).1 db t := by
    intro t db
    have hrow : process_unified_row t row db =
        (some (build_entities (processed_row_of row) (mapped_row_of row)
          a p m t), db) := by
      simp only [process_unified_row]
      rw [hg']
    simp only [process_unified_batch, batch_collect, List.foldl_cons,
      List.foldl_nil, hrow]
    rfl
  rw [hbatch, hbatch]
  refine ⟨?_, ?_, ?_⟩
  · obtain ⟨d, hd, hda⟩ := upsertProperty_pair
      (build_entities (processed_row_of row) (mapped_row_of row) a p m t1).property
      (build_entities (processed_row_of row) (mapped_row_of row) a p m t2).property
      rfl
    exact ⟨d, hd, hda⟩
  · have hO : ∀ (t : Nat) (e : Entities) (db : Store),
        (apply_ops (row_ops_of e).1 db t).owners =
          upsertOwner db.owners e.owner := fun _ _ _ => rfl
    rw [hO, hO]
    have hE : emptyStore.owners = [] := rfl
    rw [hE]
    obtain ⟨o, ho, hok⟩ := upsertOwner_twice_key
      (build_entities (processed_row_of row) (mapped_row_of row) a p m t1).owner
      (build_entities (processed_row_of row) (mapped_row_of row) a p m t2).owner
      rfl
    exact ⟨o, ho, hok.trans rfl⟩
  · refine apply_ops_sets_nodup _ _ t2 (apply_ops_sets_nodup _ _ t1 ?_)
    exact ⟨fun o ho => absurd ho (List.not_mem_nil o),
      fun d hd => absurd hd (List.not_mem_nil d),
      fun d hd => absurd hd (List.not_mem_nil d)⟩

/-- C1 witness: idempotent ingestion of a concrete valid row at ticks 0
and 1. -/
theorem ingestion_idempotent_witness :
    (∃ d, (process_unified_batch 1
      [[("apn", "123"), ("first name", "Jane"), ("last name", "Doe"),
        ("property address", "1 Main St"), ("property state", "WA"),
        ("property zip", "98001"), ("mailing zip", "98001")]]
      (process_unified_batch 0
        [[("apn", "123"), ("first name", "Jane"), ("last name", "Doe"),
          ("property address", "1 Main St"), ("property state", "WA"),
          ("property zip", "98001"), ("mailing zip", "98001")]]
        emptyStore)).properties = [d] ∧ d.apn = "0000000123") ∧
    (∃ o, (process_unified_batch 1
      [[("apn", "123"), ("first name", "Jane"), ("last name", "Doe"),
        ("property address", "1 Main St"), ("property state", "WA"),
        ("property zip", "98001"), ("mailing zip", "98001")]]
      (process_unified_batch 0
        [[("apn", "123"), ("first name", "Jane"), ("last name", "Doe"),
          ("property address", "1 Main St"), ("property state", "WA"),
          ("property zip", "98001"), ("mailing zip", "98001")]]
        emptyStore)).owners = [o] ∧
      o.normalized_owner_id = owner_key_of (mapped_row_of
        [("apn", "123"), ("first name", "Jane"), ("last name", "Doe"),
         ("property address", "1 Main St"), ("property state", "WA"),
         ("property zip", "98001"), ("mailing zip", "98001")]) "98001") ∧
    storeSetsNodup (process_unified_batch 1
      [[("apn", "123"), ("first name", "Jane"), ("last name", "Doe"),
        ("property address", "1 Main St"), ("property state", "WA"),
        ("property zip", "98001"), ("mailing zip", "98001")]]
      (process_unified_batch 0
        [[("apn", "123"), ("first name", "Jane"), ("last name", "Doe"),
          ("property address", "1 Main St"), ("property state", "WA"),
          ("property zip", "98001"), ("mailing zip", "98001")]]
        emptyStore)) :=
  ingestion_idempotent 0 1
    [("apn", "123"), ("first name", "Jane"), ("last name", "Doe"),
     ("property address", "1 Main St"), ("property state", "WA"),
     ("property zip", "98001"), ("mailing zip", "98001")]
    "0000000123" "98001" "98001" (by decide)

/-! ## Claim C3 — fallback precedence and the confidence gate -/

theorem find_best_db_match_foldl_none (address name : String)
    (ratio : String → String → ℚ) (props : List PropertyDoc) :
    ∀ acc : Option PropertyDoc × ℚ,
      (props.foldl (fun best prop =>
        let addr_similarity := ratio address prop.address.street
        let owner_full_name := ""
        let name_similarity := ratio name owner_full_name
        let total_score := addr_similarity * (8 / 10) + name_similarity * (2 / 10)
        if total_score > best.2 then (some prop, total_score) else best) acc).1 =
        none →
      props.foldl (fun best prop =>
        let addr_similarity := ratio address prop.address.street
        let owner_full_name := ""
        let name_similarity := ratio name owner_full_name
        let total_score := addr_similarity * (8 / 10) + name_similarity * (2 / 10)
        if total_score > best.2 then (some prop, total_score) else best) acc =
        acc := by
  induction props with
  | nil => intro acc _; rfl
  | cons p ps ih =>
    intro acc h
    simp only [List.foldl_cons] at h ⊢
    by_cases hgt : ratio address p.address.street * (8 / 10) +
        ratio name "" * (2 / 10) > acc.2
    · rw [if_pos hgt] at h
      exfalso
      rw [ih _ h] at h
      exact Option.noConfusion h
    · rw [if_neg hgt] at h ⊢
      exact ih _ h

theorem find_best_db_match_none (address name : String) (db : Store)
    (ratio : String → String → ℚ)
    (h : (find_best_db_match address name db ratio).1 = none) :
    (find_best_db_match address name db ratio).2 = 0 := by
  unfold find_best_db_match at h ⊢
  rw [find_best_db_match_foldl_none address name ratio db.properties _ h]

/-- C3 (confirmed): for a pending candidate whose address fields are
present, the cascade runs the local fuzzy match first and accepts it
exactly when its weighted score reaches the fixed threshold 80 — then
reporting method `"local_db"` and invoking no external provider; a local
score strictly below 80 (e.g. 79) is rejected and the cascade falls
through to the Google lookup. -/
theorem fallback_local_precedence (db : Store) (ratio : String → String → ℚ)
    (google apify : Except String (Option String)) (cfg : Bool) (now : Nat)
    (dur : ℚ) (cand : PendingCandidate) (bm : Option PropertyDoc) (conf : ℚ)
    (h1 : pyStrip (dgetD cand.raw_data "property address" "") ≠ "")
    (h2 : pyStrip (dgetD cand.raw_data "property city" "") ≠ "")
    (h3 : pyStrip (dgetD cand.raw_data "property state" "") ≠ "")
    (hfb : find_best_db_match (standardize_address
        (pyStrip (dgetD cand.raw_data "property address" ""))
        (pyStrip (dgetD cand.raw_data "property city" ""))
        (pyStrip (dgetD cand.raw_data "property state" ""))
        (pyStrip (dgetD cand.raw_data "property zip" ""))).street
      (pyStrip (dgetD cand.raw_data "first name" "" ++ " " ++
        dgetD cand.raw_data "last name" "")) db ratio = (bm, conf)) :
    ((enrich_candidate db ratio google apify cfg now dur cand).method =
      some "local_db" ↔ 80 ≤ conf) ∧
    (80 ≤ conf →
      (enrich_candidate db ratio google apify cfg now dur cand).google_invoked =
        false ∧
      (enrich_candidate db ratio google apify cfg now dur cand).apify_invoked =
        false) ∧
    (conf < 80 →
      (enrich_candidate db ratio google apify cfg now dur cand).google_invoked =
        true) := by
  have hpre : ¬(pyStrip (dgetD cand.raw_data "property address" "") = "" ∨
      pyStrip (dgetD cand.raw_data "property city" "") = "" ∨
      pyStrip (dgetD cand.raw_data "property state" "") = "") :=
    fun hx => hx.elim h1 (fun hy => hy.elim h2 h3)
  simp only [enrich_candidate]
  rw [if_neg hpre, hfb]
  dsimp only
  by_cases hc : (80 : ℚ) ≤ conf
  · rw [if_pos (show conf ≥ 80 from hc)]
    cases bm with
    | none =>
      exfalso
      have hfst : (find_best_db_match (standardize_address
          (pyStrip (dgetD cand.raw_data "property address" ""))
          (pyStrip (dgetD cand.raw_data "property city" ""))
          (pyStrip (dgetD cand.raw_data "property state" ""))
          (pyStrip (dgetD cand.raw_data "property zip" ""))).street
        (pyStrip (dgetD cand.raw_data "first name" "" ++ " " ++
          dgetD cand.raw_data "last name" "")) db ratio).1 = none := by
        rw [hfb]
      have hz := find_best_db_match_none _ _ _ _ hfst
      rw [hfb] at hz
      rw [show conf = 0 from hz] at hc
      exact absurd hc (by norm_num)
    | some mdoc =>
      dsimp only
      exact ⟨⟨fun _ => hc, fun _ => rfl⟩, fun _ => ⟨rfl, rfl⟩,
        fun hlt => absurd hc (not_le.mpr hlt)⟩
  · rw [if_neg (show ¬(conf ≥ 80) from hc)]
    have leaf : ∀ r : EnrichResult, r.method ≠ some "local_db" →
        r.google_invoked = true →
        ((r.method = some "local_db" ↔ 80 ≤ conf) ∧
         (80 ≤ conf → r.google_invoked = false ∧ r.apify_invoked = false) ∧
         (conf < 80 → r.google_invoked = true)) :=
      fun r hm hg => ⟨⟨fun h => absurd h hm, fun h => absurd h hc⟩,
        fun h => absurd h hc, fun _ => hg⟩
    rcases google with ⟨gerr⟩ | ⟨gval⟩
    · cases cfg
      · refine leaf _ ?_ rfl
        simp
      · rcases apify with ⟨aerr⟩ | ⟨aval⟩
        · refine leaf _ ?_ rfl
          simp
        · rcases aval with _ | aapn
          · refine leaf _ ?_ rfl
            simp
          · dsimp only
            by_cases hap : aapn ≠ ""
            · rw [if_pos hap]
              refine leaf _ ?_ rfl
              simp
            · rw [if_neg hap]
              refine leaf _ ?_ rfl
              simp
    · rcases gval with _ | gapn
      · cases cfg
        · refine leaf _ ?_ rfl
          simp
        · rcases apify with ⟨aerr⟩ | ⟨aval⟩
          · refine leaf _ ?_ rfl
            simp
          · rcases aval with _ | aapn
            · refine leaf _ ?_ rfl
              simp
            · dsimp only
              by_cases hap : aapn ≠ ""
              · rw [if_pos hap]
                refine leaf _ ?_ rfl
                simp
              · rw [if_neg hap]
                refine leaf _ ?_ rfl
                simp
      · dsimp only
        by_cases hgap : gapn ≠ ""
        · rw [if_pos hgap]
          refine leaf _ ?_ rfl
          simp
        · rw [if_neg hgap]
          cases cfg
          · refine leaf _ ?_ rfl
            simp
          · rcases apify with ⟨aerr⟩ | ⟨aval⟩
            · refine leaf _ ?_ rfl
              simp
            · rcases aval with _ | aapn
              · refine leaf _ ?_ rfl
                simp
              · dsimp only
                by_cases hap : aapn ≠ ""
                · rw [if_pos hap]
                  refine leaf _ ?_ rfl
                  simp
                · rw [if_neg hap]
                  refine leaf _ ?_ rfl
                  simp

/-- C3 witness: with one stored property and a similarity oracle scoring
90, the cascade accepts locally, reports `"local_db"`, and invokes
neither external provider. -/
theorem fallback_local_precedence_witness :
    (enrich_candidate
      ⟨[⟨"1234567890", ⟨"1 MAIN ST", "", "", ""⟩, ⟨none, none, none, none⟩,
         ⟨none, none⟩, 0, none, none⟩], [], [], [], [], 0⟩
      (fun _ _ => 90) (.ok none) (.ok none) false 0 0
      ⟨0, [("property address", "1 Main St"), ("property city", "Seattle"),
          ("property state", "WA")], "missing_apn", "pending", 0,
        "unified_csv", none, none, none, none, none, none⟩).method =
      some "local_db" ∧
    (enrich_candidate
      ⟨[⟨"1234567890", ⟨"1 MAIN ST", "", "", ""⟩, ⟨none, none, none, none⟩,
         ⟨none, none⟩, 0, none, none⟩], [], [], [], [], 0⟩
      (fun _ _ => 90) (.ok none) (.ok none) false 0 0
      ⟨0, [("property address", "1 Main St"), ("property city", "Seattle"),
          ("property state", "WA")], "missing_apn", "pending", 0,
        "unified_csv", none, none, none, none, none, none⟩).google_invoked =
      false ∧
    (enrich_candidate
      ⟨[⟨"1234567890", ⟨"1 MAIN ST", "", "", ""⟩, ⟨none, none, none, none⟩,
         ⟨none, none⟩, 0, none, none⟩], [], [], [], [], 0⟩
      (fun _ _ => 90) (.ok none) (.ok none) false 0 0
      ⟨0, [("property address", "1 Main St"), ("property city", "Seattle"),
          ("property state", "WA")], "missing_apn", "pending", 0,
        "unified_csv", none, none, none, none, none, none⟩).apify_invoked =
      false := by
  obtain ⟨hiff, hinv, _⟩ := fallback_local_precedence
    ⟨[⟨"1234567890", ⟨"1 MAIN ST", "", "", ""⟩, ⟨none, none, none, none⟩,
       ⟨none, none⟩, 0, none, none⟩], [], [], [], [], 0⟩
    (fun _ _ => 90) (.ok none) (.ok none) false 0 0
    ⟨0, [("property address", "1 Main St"), ("property city", "Seattle"),
        ("property state", "WA")], "missing_apn", "pending", 0,
      "unified_csv", none, none, none, none, none, none⟩
    (some ⟨"1234567890", ⟨"1 MAIN ST", "", "", ""⟩, ⟨none, none, none, none⟩,
      ⟨none, none⟩, 0, none, none⟩) 90
    (by decide) (by decide) (by decide)
    (by norm_num [find_best_db_match, List.foldl_cons, List.foldl_nil])
  exact ⟨hiff.mpr (by norm_num), (hinv (by norm_num)).1, (hinv (by norm_num)).2⟩

/-! ## Claim C8 — char-level lemmas about the normalizer stages -/

theorem mem_trimL {c : Char} (l : List Char) (h : c ∈ trimL l) : c ∈ l := by
  unfold trimL at h
  rw [List.mem_reverse] at h
  have h1 := (List.dropWhile_sublist _).subset h
  rw [List.mem_reverse] at h1
  exact (List.dropWhile_sublist _).subset h1

theorem noUpper_pyLowerChar (c : Char) : isUpperAZ (pyLowerChar c) = false := by
  unfold pyLowerChar
  split
  · next h =>
    have hv : (c.toNat + 32).isValidChar := by
      left
      omega
    have ht : (Char.ofNat (c.toNat + 32)).toNat = c.toNat + 32 := by
      unfold Char.ofNat
      rw [dif_pos hv]
      rfl
    have h90 : ¬(c.toNat + 32 ≤ 90) := by omega
    simp [isUpperAZ, ht, h90]
  · next h =>
    simp only [isUpperAZ, Bool.and_eq_false_iff, decide_eq_false_iff_not]
    omega

theorem noUpper_lowerL (l : List Char) : ∀ c ∈ lowerL l, isUpperAZ c = false := by
  intro c hc
  obtain ⟨d, _, rfl⟩ := List.mem_map.mp hc
  exact noUpper_pyLowerChar d

theorem mem_sepToSpace {c : Char} (l : List Char) (h : c ∈ sepToSpace l) :
    c ∈ l ∨ c = ' ' := by
  obtain ⟨d, hd, he⟩ := List.mem_map.mp h
  by_cases hs : isSepChar d = true
  · rw [if_pos hs] at he
    exact Or.inr he.symm
  · rw [if_neg hs] at he
    exact Or.inl (he ▸ hd)

theorem noSep_sepToSpace (l : List Char) : ∀ c ∈ sepToSpace l, isSepChar c = false := by
  intro c hc
  obtain ⟨d, _, he⟩ := List.mem_map.mp hc
  by_cases hs : isSepChar d = true
  · rw [if_pos hs] at he
    rw [← he]
    decide
  · rw [if_neg hs] at he
    exact he ▸ Bool.eq_false_iff.mpr hs

theorem collapseWs_cons_cons (a b : Char) (t : List Char) :
    collapseWs (a :: b :: t) = if pyWs a && pyWs b then collapseWs (b :: t)
      else (if pyWs a then ' ' else a) :: collapseWs (b :: t) := rfl

theorem mem_collapseWs {c : Char} : ∀ l : List Char, c ∈ collapseWs l →
    c ∈ l ∨ c = ' ' := by
  intro l
  induction l with
  | nil => intro h; simp [collapseWs] at h
  | cons a t ih =>
    cases t with
    | nil =>
      intro h
      unfold collapseWs at h
      by_cases hw : pyWs a = true
      · rw [if_pos hw] at h
        exact Or.inr (List.mem_singleton.mp h)
      · rw [if_neg hw] at h
        exact Or.inl (List.mem_singleton.mp h ▸ List.mem_singleton_self a)
    | cons b t' =>
      intro h
      rw [collapseWs_cons_cons] at h
      by_cases hab : (pyWs a && pyWs b) = true
      · rw [if_pos hab] at h
        rcases ih h with h' | h'
        · exact Or.inl (List.mem_cons_of_mem _ h')
        · exact Or.inr h'
      · rw [if_neg hab] at h
        rcases List.mem_cons.mp h with he | hm
        · by_cases hwa : pyWs a = true
          · rw [if_pos hwa] at he
            exact Or.inr he
          · rw [if_neg hwa] at he
            exact Or.inl (he ▸ List.mem_cons_self a _)
        · rcases ih hm with h' | h'
          · exact Or.inl (List.mem_cons_of_mem _ h')
          · exact Or.inr h'

theorem wsOnly_collapseWs : ∀ l : List Char, ∀ c ∈ collapseWs l,
    pyWs c = true → c = ' ' := by
  intro l
  induction l with
  | nil => intro c hc; simp [collapseWs] at hc
  | cons a t ih =>
    cases t with
    | nil =>
      intro c hc hw
      unfold collapseWs at hc
      by_cases hwa : pyWs a = true
      · rw [if_pos hwa] at hc
        exact List.mem_singleton.mp hc
      · rw [if_neg hwa] at hc
        rw [List.mem_singleton.mp hc] at hw
        exact absurd hw hwa
    | cons b t' =>
      intro c hc hw
      rw [collapseWs_cons_cons] at hc
      by_cases hab : (pyWs a && pyWs b) = true
      · rw [if_pos hab] at hc
        exact ih c hc hw
      · rw [if_neg hab] at hc
        rcases List.mem_cons.mp hc with he | hm
        · by_cases hwa : pyWs a = true
          · rw [if_pos hwa] at he
            exact he
          · rw [if_neg hwa] at he
            rw [he] at hw
            exact absurd hw hwa
        · exact ih c hm hw

theorem letterDigitSpace_cons_cons (a b : Char) (t : List Char) :
    letterDigitSpace (a :: b :: t) =
      if isLetterAZ a && b.isDigit then a :: ' ' :: letterDigitSpace (b :: t)
      else a :: letterDigitSpace (b :: t) := rfl

theorem mem_letterDigitSpace {c : Char} : ∀ l : List Char,
    c ∈ letterDigitSpace l → c ∈ l ∨ c = ' ' := by
  intro l
  induction l with
  | nil => intro h; simp [letterDigitSpace] at h
  | cons a t ih =>
    cases t with
    | nil =>
      intro h
      exact Or.inl h
    | cons b t' =>
      intro h
      rw [letterDigitSpace_cons_cons] at h
      by_cases hab : (isLetterAZ a && b.isDigit) = true
      · rw [if_pos hab] at h
        rcases List.mem_cons.mp h with he | hm
        · exact Or.inl (he ▸ List.mem_cons_self a _)
        · rcases List.mem_cons.mp hm with he' | hm'
          · exact Or.inr he'
          · rcases ih hm' with h' | h'
            · exact Or.inl (List.mem_cons_of_mem _ h')
            · exact Or.inr h'
      · rw [if_neg hab] at h
        rcases List.mem_cons.mp h with he | hm
        · exact Or.inl (he ▸ List.mem_cons_self a _)
        · rcases ih hm with h' | h'
          · exact Or.inl (List.mem_cons_of_mem _ h')
          · exact Or.inr h'

theorem mem_replaceFuel {c : Char} (p rep : List Char) :
    ∀ (f : Nat) (s : List Char), c ∈ replaceFuel p rep f s → c ∈ s ∨ c ∈ rep := by
  intro f
  induction f with
  | zero =>
    intro s h
    cases s with
    | nil => simp [replaceFuel] at h
    | cons x xs => exact Or.inl h
  | succ f ih =>
    intro s h
    cases s with
    | nil => simp [replaceFuel] at h
    | cons x xs =>
      unfold replaceFuel at h
      by_cases hp : p.isPrefixOf (x :: xs) = true
      · rw [if_pos hp] at h
        rcases List.mem_append.mp h with hr | hrec
        · exact Or.inr hr
        · rcases ih _ hrec with h' | h'
          · exact Or.inl (List.mem_of_mem_drop h')
          · exact Or.inr h'
      · rw [if_neg hp] at h
        rcases List.mem_cons.mp h with he | hm
        · exact Or.inl (he ▸ List.mem_cons_self x _)
        · rcases ih _ hm with h' | h'
          · exact Or.inl (List.mem_cons_of_mem _ h')
          · exact Or.inr h'

theorem mem_pyReplace {c : Char} (s p rep : List Char) (h : c ∈ pyReplace s p rep) :
    c ∈ s ∨ c ∈ rep := by
  unfold pyReplace at h
  by_cases hp : p.isEmpty = true
  · rw [if_pos hp] at h
    exact Or.inl h
  · rw [if_neg hp] at h
    exact mem_replaceFuel p rep s.length s h

theorem sepToSpace_fix (l : List Char) (h : ∀ c ∈ l, isSepChar c = false) :
    sepToSpace l = l := by
  unfold sepToSpace
  induction l with
  | nil => rfl
  | cons c t ih =>
    rw [List.map_cons, if_neg (by simp [h c (List.mem_cons_self c t)]),
      ih (fun x hx => h x (List.mem_cons_of_mem _ hx))]

theorem pyLowerChar_fix (c : Char) (h : isUpperAZ c = false) : pyLowerChar c = c := by
  unfold pyLowerChar
  simp only [isUpperAZ, Bool.and_eq_false_iff, decide_eq_false_iff_not] at h
  rw [if_neg (by omega)]

theorem lowerL_fix (l : List Char) (h : ∀ c ∈ l, isUpperAZ c = false) :
    lowerL l = l := by
  unfold lowerL
  induction l with
  | nil => rfl
  | cons c t ih =>
    rw [List.map_cons, pyLowerChar_fix c (h c (List.mem_cons_self c t)),
      ih (fun x hx => h x (List.mem_cons_of_mem _ hx))]

theorem replaceFuel_fix (p rep : List Char) :
    ∀ (f : Nat) (s : List Char), containsSub p s = false → replaceFuel p rep f s = s := by
  intro f
  induction f with
  | zero =>
    intro s _
    cases s with
    | nil => rfl
    | cons x xs => rfl
  | succ f ih =>
    intro s h
    cases s with
    | nil => rfl
    | cons x xs =>
      unfold containsSub at h
      rw [Bool.or_eq_false_iff] at h
      unfold replaceFuel
      rw [if_neg (by simp [h.1]), ih _ h.2]

theorem pyReplace_fix (s p rep : List Char) (h : containsSub p s = false) :
    pyReplace s p rep = s := by
  unfold pyReplace
  by_cases hp : p.isEmpty = true
  · rw [if_pos hp]
  · rw [if_neg hp]
    exact replaceFuel_fix p rep s.length s h

theorem adjOK_tail {R : Char → Char → Bool} {x : Char} {xs : List Char}
    (h : adjOK R (x :: xs) = true) : adjOK R xs = true := by
  cases xs with
  | nil => rfl
  | cons y ys =>
    rw [show adjOK R (x :: y :: ys) = (R x y && adjOK R (y :: ys)) from rfl,
      Bool.and_eq_true] at h
    exact h.2

theorem adjOK_cons {R : Char → Char → Bool} {x : Char} {xs : List Char} :
    adjOK R (x :: xs) = true ↔
      (∀ y, xs.head? = some y → R x y = true) ∧ adjOK R xs = true := by
  cases xs with
  | nil => simp [adjOK]
  | cons y ys =>
    rw [show adjOK R (x :: y :: ys) = (R x y && adjOK R (y :: ys)) from rfl,
      Bool.and_eq_true]
    constructor
    · rintro ⟨h1, h2⟩
      exact ⟨fun z hz => (Option.some.injEq _ _ ▸ hz : y = z) ▸ h1, h2⟩
    · rintro ⟨h1, h2⟩
      exact ⟨h1 y rfl, h2⟩

theorem adjOK_append_right (R : Char → Char → Bool) (l1 l2 : List Char)
    (h : adjOK R (l1 ++ l2) = true) : adjOK R l2 = true := by
  induction l1 with
  | nil => exact h
  | cons a t ih => exact ih (adjOK_tail h)

theorem adjOK_append_junction (R : Char → Char → Bool) :
    ∀ (l1 l2 : List Char) (x y : Char), adjOK R (l1 ++ l2) = true →
      l1.getLast? = some x → l2.head? = some y → R x y = true := by
  intro l1
  induction l1 with
  | nil => intro l2 x y _ hlast _; simp at hlast
  | cons a t ih =>
    intro l2 x y h hlast hhead
    cases t with
    | nil =>
      have hx : x = a := by simpa using hlast.symm
      subst hx
      exact (adjOK_cons.mp h).1 y hhead
    | cons b t' =>
      rw [List.getLast?_cons_cons] at hlast
      exact ih l2 x y (adjOK_tail h) hlast hhead

theorem adjOK_append (R : Char → Char → Bool) :
    ∀ (l1 l2 : List Char), adjOK R l1 = true → adjOK R l2 = true →
      (∀ x y, l1.getLast? = some x → l2.head? = some y → R x y = true) →
      adjOK R (l1 ++ l2) = true := by
  intro l1
  induction l1 with
  | nil => intro l2 _ h2 _; exact h2
  | cons a t ih =>
    intro l2 h1 h2 hj
    cases t with
    | nil =>
      refine adjOK_cons.mpr ⟨fun y hy => hj a y rfl hy, h2⟩
    | cons b t' =>
      rw [List.cons_append]
      refine adjOK_cons.mpr ⟨?_, ?_⟩
      · intro y hy
        have hyb : y = b := by simpa using hy.symm
        rw [hyb]
        exact (adjOK_cons.mp h1).1 b rfl
      · exact ih l2 (adjOK_tail h1) h2
          (fun x y hx hy => hj x y (by rw [List.getLast?_cons_cons]; exact hx) hy)

theorem adjOK_drop (R : Char → Char → Bool) :
    ∀ (n : Nat) (l : List Char), adjOK R l = true → adjOK R (l.drop n) = true := by
  intro n
  induction n with
  | zero => intro l h; exact h
  | succ n ih =>
    intro l h
    cases l with
    | nil => rfl
    | cons x xs => exact ih xs (adjOK_tail h)

theorem replaceFuel_cons_pos (p rep : List Char) (f : Nat) (x : Char)
    (xs : List Char) (hp : p.isPrefixOf (x :: xs) = true) :
    replaceFuel p rep (f + 1) (x :: xs) =
      rep ++ replaceFuel p rep f ((x :: xs).drop p.length) := by
  simp [replaceFuel, hp]

theorem replaceFuel_cons_neg (p rep : List Char) (f : Nat) (x : Char)
    (xs : List Char) (hp : ¬p.isPrefixOf (x :: xs) = true) :
    replaceFuel p rep (f + 1) (x :: xs) = x :: replaceFuel p rep f xs := by
  simp [replaceFuel, hp]

theorem head?_replaceFuel (p rep : List Char) (hrne : rep ≠ []) :
    ∀ (f : Nat) (s : List Char),
      (replaceFuel p rep f s).head? = s.head? ∨
      ((replaceFuel p rep f s).head? = rep.head? ∧ p.isPrefixOf s = true) := by
  intro f
  induction f with
  | zero =>
    intro s
    cases s with
    | nil => exact Or.inl rfl
    | cons x xs => exact Or.inl rfl
  | succ f ih =>
    intro s
    cases s with
    | nil => exact Or.inl rfl
    | cons x xs =>
      by_cases hp : p.isPrefixOf (x :: xs) = true
      · refine Or.inr ⟨?_, hp⟩
        rw [replaceFuel_cons_pos p rep f x xs hp]
        cases rep with
        | nil => exact absurd rfl hrne
        | cons r0 rr => rfl
      · rw [replaceFuel_cons_neg p rep f x xs hp]
        exact Or.inl rfl

theorem head?_of_isPrefixOf {p s : List Char} (hpne : p ≠ [])
    (h : p.isPrefixOf s = true) : s.head? = p.head? := by
  obtain ⟨t, ht⟩ := List.isPrefixOf_iff_prefix.mp h
  cases p with
  | nil => exact absurd rfl hpne
  | cons p0 pr =>
    rw [← ht]
    rfl

theorem adjOK_replaceFuel (R : Char → Char → Bool) (p rep : List Char)
    (hpne : p ≠ []) (hrne : rep ≠ []) (hRrep : adjOK R rep = true)
    (hL : ∀ a p0 r0, p.head? = some p0 → rep.head? = some r0 →
      R a p0 = true → R a r0 = true)
    (hR2 : ∀ b pl rl, p.getLast? = some pl → rep.getLast? = some rl →
      R pl b = true → R rl b = true)
    (hRR : ∀ rl r0, rep.getLast? = some rl → rep.head? = some r0 →
      R rl r0 = true) :
    ∀ (f : Nat) (s : List Char), adjOK R s = true →
      adjOK R (replaceFuel p rep f s) = true := by
  intro f
  induction f with
  | zero =>
    intro s h
    cases s with
    | nil => rfl
    | cons x xs => exact h
  | succ f ih =>
    intro s h
    cases s with
    | nil => rfl
    | cons x xs =>
      by_cases hp : p.isPrefixOf (x :: xs) = true
      · rw [replaceFuel_cons_pos p rep f x xs hp]
        obtain ⟨t, ht⟩ := List.isPrefixOf_iff_prefix.mp hp
        have hdrop : (x :: xs).drop p.length = t := by
          rw [← ht, List.drop_left]
        rw [hdrop]
        have hpt : adjOK R (p ++ t) = true := by
          rw [ht]
          exact h
        have ht_adj : adjOK R t = true := adjOK_append_right R p t hpt
        refine adjOK_append R rep _ hRrep (ih t ht_adj) ?_
        intro xq yq hlast hhead
        rcases head?_replaceFuel p rep hrne f t with hh | ⟨hh, _⟩
        · rw [hh] at hhead
          obtain ⟨pl, hpl⟩ := Option.isSome_iff_exists.mp
            (List.getLast?_isSome.mpr hpne)
          exact hR2 yq pl xq hpl hlast
            (adjOK_append_junction R p t pl yq hpt hpl hhead)
        · rw [hh] at hhead
          exact hRR xq yq hlast hhead
      · rw [replaceFuel_cons_neg p rep f x xs hp]
        refine adjOK_cons.mpr ⟨?_, ih xs (adjOK_tail h)⟩
        intro y hy
        rcases head?_replaceFuel p rep hrne f xs with hh | ⟨hh, hpre2⟩
        · rw [hh] at hy
          exact (adjOK_cons.mp h).1 y hy
        · rw [hh] at hy
          obtain ⟨p0, hp0⟩ := Option.isSome_iff_exists.mp
            (by cases p with
              | nil => exact absurd rfl hpne
              | cons a b => simp : (List.head? p).isSome = true)
          have hxsh : xs.head? = some p0 := by
            rw [head?_of_isPrefixOf hpne hpre2, hp0]
          exact hL x p0 y hp0 hy ((adjOK_cons.mp h).1 p0 hxsh)

theorem head?_collapseWs : ∀ (b : Char) (t : List Char),
    (collapseWs (b :: t)).head? = some (if pyWs b then ' ' else b) := by
  intro b t
  induction t generalizing b with
  | nil =>
    by_cases hw : pyWs b = true
    · simp [collapseWs, hw]
    · simp [collapseWs, hw]
  | cons c t' ih =>
    rw [collapseWs_cons_cons]
    by_cases hbc : (pyWs b && pyWs c) = true
    · rw [if_pos hbc, ih c]
      rw [Bool.and_eq_true] at hbc
      rw [if_pos hbc.1, if_pos hbc.2]
    · rw [if_neg hbc]
      rfl

theorem adjOK_noDoubleSpace_collapseWs : ∀ l : List Char,
    adjOK noDoubleSpace (collapseWs l) = true := by
  intro l
  induction l with
  | nil => rfl
  | cons a t ih =>
    cases t with
    | nil =>
      by_cases hw : pyWs a = true
      · unfold collapseWs
        rw [if_pos hw]
        rfl
      · unfold collapseWs
        rw [if_neg hw]
        rfl
    | cons b t' =>
      rw [collapseWs_cons_cons]
      by_cases hab : (pyWs a && pyWs b) = true
      · rw [if_pos hab]
        exact ih
      · rw [if_neg hab]
        refine adjOK_cons.mpr ⟨?_, ih⟩
        intro y hy
        rw [head?_collapseWs b t'] at hy
        have hyv : y = if pyWs b then ' ' else b := by simpa using hy.symm
        by_cases hwa : pyWs a = true
        · have hwb : ¬pyWs b = true := fun hb => hab (by rw [hwa, hb]; rfl)
          have hbne : b ≠ ' ' := fun hbe => hwb (by rw [hbe]; rfl)
          rw [if_pos hwa, hyv, if_neg hwb]
          simp [noDoubleSpace, hbne]
        · have hane : a ≠ ' ' := fun hae => hwa (by rw [hae]; rfl)
          rw [if_neg hwa, hyv]
          simp [noDoubleSpace, hane]

theorem head?_letterDigitSpace : ∀ (b : Char) (t : List Char),
    (letterDigitSpace (b :: t)).head? = some b := by
  intro b t
  cases t with
  | nil => rfl
  | cons c t' =>
    rw [letterDigitSpace_cons_cons]
    by_cases h : (isLetterAZ b && c.isDigit) = true
    · rw [if_pos h]
      rfl
    · rw [if_neg h]
      rfl

theorem adjOK_noDoubleSpace_letterDigitSpace : ∀ l : List Char,
    adjOK noDoubleSpace l = true →
    adjOK noDoubleSpace (letterDigitSpace l) = true := by
  intro l
  induction l with
  | nil => intro _; rfl
  | cons a t ih =>
    intro h
    cases t with
    | nil => rfl
    | cons b t' =>
      rw [letterDigitSpace_cons_cons]
      by_cases hab : (isLetterAZ a && b.isDigit) = true
      · rw [if_pos hab]
        rw [Bool.and_eq_true] at hab
        have hane : a ≠ ' ' := fun he => by
          rw [he] at hab
          exact absurd hab.1 (by decide)
        have hbne : b ≠ ' ' := fun he => by
          rw [he] at hab
          exact absurd hab.2 (by decide)
        refine adjOK_cons.mpr ⟨?_, adjOK_cons.mpr ⟨?_, ih (adjOK_tail h)⟩⟩
        · intro y hy
          have hyv : y = ' ' := by simpa using hy.symm
          rw [hyv]
          simp [noDoubleSpace, hane]
        · intro y hy
          rw [head?_letterDigitSpace b t'] at hy
          have hyv : y = b := by simpa using hy.symm
          rw [hyv]
          simp [noDoubleSpace, hbne]
      · rw [if_neg hab]
        refine adjOK_cons.mpr ⟨?_, ih (adjOK_tail h)⟩
        intro y hy
        rw [head?_letterDigitSpace b t'] at hy
        have hyv : y = b := by simpa using hy.symm
        rw [hyv]
        exact (adjOK_cons.mp h).1 b rfl

theorem adjOK_noLetterDigit_letterDigitSpace : ∀ l : List Char,
    adjOK noLetterDigit (letterDigitSpace l) = true := by
  intro l
  induction l with
  | nil => rfl
  | cons a t ih =>
    cases t with
    | nil => rfl
    | cons b t' =>
      rw [letterDigitSpace_cons_cons]
      by_cases hab : (isLetterAZ a && b.isDigit) = true
      · rw [if_pos hab]
        refine adjOK_cons.mpr ⟨?_, adjOK_cons.mpr ⟨?_, ih⟩⟩
        · intro y hy
          have hyv : y = ' ' := by simpa using hy.symm
          rw [hyv]
          simp [noLetterDigit]
        · intro y hy
          rw [head?_letterDigitSpace b t'] at hy
          have hyv : y = b := by simpa using hy.symm
          rw [hyv]
          simp [noLetterDigit, isLetterAZ]
      · rw [if_neg hab]
        refine adjOK_cons.mpr ⟨?_, ih⟩
        intro y hy
        rw [head?_letterDigitSpace b t'] at hy
        have hyv : y = b := by simpa using hy.symm
        rw [hyv]
        simp [noLetterDigit, Bool.eq_false_iff.mpr hab]

theorem collapseWs_fix : ∀ l : List Char, (∀ c ∈ l, pyWs c = true → c = ' ') →
    adjOK noDoubleSpace l = true → collapseWs l = l := by
  intro l
  induction l with
  | nil => intro _ _; rfl
  | cons a t ih =>
    intro hws hadj
    cases t with
    | nil =>
      unfold collapseWs
      by_cases hw : pyWs a = true
      · rw [if_pos hw, hws a (List.mem_cons_self a _) hw]
      · rw [if_neg hw]
    | cons b t' =>
      rw [collapseWs_cons_cons]
      by_cases hab : (pyWs a && pyWs b) = true
      · exfalso
        rw [Bool.and_eq_true] at hab
        have ha := hws a (List.mem_cons_self a _) hab.1
        have hb := hws b (List.mem_cons_of_mem _ (List.mem_cons_self b _)) hab.2
        have hr := (adjOK_cons.mp hadj).1 b rfl
        rw [ha, hb] at hr
        exact absurd hr (by decide)
      · rw [if_neg hab,
          ih (fun c hc hw => hws c (List.mem_cons_of_mem _ hc) hw) (adjOK_tail hadj)]
        by_cases hwa : pyWs a = true
        · rw [if_pos hwa, hws a (List.mem_cons_self a _) hwa]
        · rw [if_neg hwa]

theorem letterDigitSpace_fix : ∀ l : List Char, adjOK noLetterDigit l = true →
    letterDigitSpace l = l := by
  intro l
  induction l with
  | nil => intro _; rfl
  | cons a t ih =>
    intro hadj
    cases t with
    | nil => rfl
    | cons b t' =>
      rw [letterDigitSpace_cons_cons]
      by_cases hab : (isLetterAZ a && b.isDigit) = true
      · exfalso
        have hr := (adjOK_cons.mp hadj).1 b rfl
        unfold noLetterDigit at hr
        rw [hab] at hr
        exact absurd hr (by decide)
      · rw [if_neg hab, ih (adjOK_tail hadj)]

theorem normalizeChars_noSep (s : List Char) :
    ∀ c ∈ normalizeChars s, isSepChar c = false := by
  intro c hc
  simp only [normalizeChars] at hc
  rcases mem_pyReplace _ _ _ hc with h6 | hlit
  · rcases mem_pyReplace _ _ _ h6 with h5 | hlit
    · rcases mem_pyReplace _ _ _ h5 with h4 | hlit
      · rcases mem_letterDigitSpace _ h4 with h3 | hsp
        · rcases mem_collapseWs _ h3 with h2 | hsp
          · exact noSep_sepToSpace _ c h2
          · rw [hsp]
            decide
        · rw [hsp]
          decide
      · exact (by decide : ∀ x ∈ "property address".data, isSepChar x = false) c hlit
    · exact (by decide : ∀ x ∈ "first name".data, isSepChar x = false) c hlit
  · exact (by decide : ∀ x ∈ "last name".data, isSepChar x = false) c hlit

theorem normalizeChars_noUpper (s : List Char) :
    ∀ c ∈ normalizeChars s, isUpperAZ c = false := by
  intro c hc
  simp only [normalizeChars] at hc
  rcases mem_pyReplace _ _ _ hc with h6 | hlit
  · rcases mem_pyReplace _ _ _ h6 with h5 | hlit
    · rcases mem_pyReplace _ _ _ h5 with h4 | hlit
      · rcases mem_letterDigitSpace _ h4 with h3 | hsp
        · rcases mem_collapseWs _ h3 with h2 | hsp
          · rcases mem_sepToSpace _ h2 with h1 | hsp
            · exact noUpper_lowerL _ c h1
            · rw [hsp]
              decide
          · rw [hsp]
            decide
        · rw [hsp]
          decide
      · exact (by decide : ∀ x ∈ "property address".data, isUpperAZ x = false) c hlit
    · exact (by decide : ∀ x ∈ "first name".data, isUpperAZ x = false) c hlit
  · exact (by decide : ∀ x ∈ "last name".data, isUpperAZ x = false) c hlit

theorem normalizeChars_wsOnly (s : List Char) :
    ∀ c ∈ normalizeChars s, pyWs c = true → c = ' ' := by
  intro c hc
  simp only [normalizeChars] at hc
  rcases mem_pyReplace _ _ _ hc with h6 | hlit
  · rcases mem_pyReplace _ _ _ h6 with h5 | hlit
    · rcases mem_pyReplace _ _ _ h5 with h4 | hlit
      · rcases mem_letterDigitSpace _ h4 with h3 | hsp
        · exact wsOnly_collapseWs _ c h3
        · rw [hsp]
          intro _
          rfl
      · exact (by decide : ∀ x ∈ "property address".data, pyWs x = true → x = ' ')
          c hlit
    · exact (by decide : ∀ x ∈ "first name".data, pyWs x = true → x = ' ') c hlit
  · exact (by decide : ∀ x ∈ "last name".data, pyWs x = true → x = ' ') c hlit

theorem noDoubleSpace_right_nonspace (a r : Char) (hr : r ≠ ' ') :
    noDoubleSpace a r = true := by
  simp [noDoubleSpace, hr]

theorem noDoubleSpace_left_nonspace (l b : Char) (hl : l ≠ ' ') :
    noDoubleSpace l b = true := by
  simp [noDoubleSpace, hl]

theorem noLetterDigit_right_nondigit (a r : Char) (hr : r.isDigit = false) :
    noLetterDigit a r = true := by
  simp [noLetterDigit, hr]

theorem noLetterDigit_left_letters (p r : Char) (hp : isLetterAZ p = true)
    (hr : isLetterAZ r = true) (b : Char) (h : noLetterDigit p b = true) :
    noLetterDigit r b = true := by
  simp only [noLetterDigit, hp, Bool.true_and, Bool.not_eq_true'] at h
  simp [noLetterDigit, hr, h]

theorem adjOK_pyReplace (R : Char → Char → Bool) (s p rep : List Char)
    (hrne : rep ≠ []) (hRrep : adjOK R rep = true)
    (hL : ∀ a p0 r0, p.head? = some p0 → rep.head? = some r0 →
      R a p0 = true → R a r0 = true)
    (hR2 : ∀ b pl rl, p.getLast? = some pl → rep.getLast? = some rl →
      R pl b = true → R rl b = true)
    (hRR : ∀ rl r0, rep.getLast? = some rl → rep.head? = some r0 →
      R rl r0 = true)
    (h : adjOK R s = true) : adjOK R (pyReplace s p rep) = true := by
  unfold pyReplace
  by_cases hp : p.isEmpty = true
  · rw [if_pos hp]
    exact h
  · rw [if_neg hp]
    refine adjOK_replaceFuel R p rep ?_ hrne hRrep hL hR2 hRR s.length s h
    intro hnil
    exact hp (by rw [hnil]; rfl)

theorem normalizeChars_adjDS (s : List Char) :
    adjOK noDoubleSpace (normalizeChars s) = true := by
  simp only [normalizeChars]
  refine adjOK_pyReplace _ _ _ _ (by decide) (by decide) ?_ ?_ ?_
    (adjOK_pyReplace _ _ _ _ (by decide) (by decide) ?_ ?_ ?_
      (adjOK_pyReplace _ _ _ _ (by decide) (by decide) ?_ ?_ ?_
        (adjOK_noDoubleSpace_letterDigitSpace _
          (adjOK_noDoubleSpace_collapseWs _))))
  · intro a p0 r0 _ hr0 _
    rw [show "last name".data.head? = some 'l' from by decide] at hr0
    injection hr0 with hv
    subst hv
    exact noDoubleSpace_right_nonspace a 'l' (by decide)
  · intro b pl rl _ hrl _
    rw [show "last name".data.getLast? = some 'e' from by decide] at hrl
    injection hrl with hv
    subst hv
    exact noDoubleSpace_left_nonspace 'e' b (by decide)
  · intro rl r0 hrl hr0
    rw [show "last name".data.getLast? = some 'e' from by decide] at hrl
    rw [show "last name".data.head? = some 'l' from by decide] at hr0
    injection hrl with hv1
    injection hr0 with hv2
    subst hv1
    subst hv2
    decide
  · intro a p0 r0 _ hr0 _
    rw [show "first name".data.head? = some 'f' from by decide] at hr0
    injection hr0 with hv
    subst hv
    exact noDoubleSpace_right_nonspace a 'f' (by decide)
  · intro b pl rl _ hrl _
    rw [show "first name".data.getLast? = some 'e' from by decide] at hrl
    injection hrl with hv
    subst hv
    exact noDoubleSpace_left_nonspace 'e' b (by decide)
  · intro rl r0 hrl hr0
    rw [show "first name".data.getLast? = some 'e' from by decide] at hrl
    rw [show "first name".data.head? = some 'f' from by decide] at hr0
    injection hrl with hv1
    injection hr0 with hv2
    subst hv1
    subst hv2
    decide
  · intro a p0 r0 _ hr0 _
    rw [show "property address".data.head? = some 'p' from by decide] at hr0
    injection hr0 with hv
    subst hv
    exact noDoubleSpace_right_nonspace a 'p' (by decide)
  · intro b pl rl _ hrl _
    rw [show "property address".data.getLast? = some 's' from by decide] at hrl
    injection hrl with hv
    subst hv
    exact noDoubleSpace_left_nonspace 's' b (by decide)
  · intro rl r0 hrl hr0
    rw [show "property address".data.getLast? = some 's' from by decide] at hrl
    rw [show "property address".data.head? = some 'p' from by decide] at hr0
    injection hrl with hv1
    injection hr0 with hv2
    subst hv1
    subst hv2
    decide

theorem normalizeChars_adjLD (s : List Char) :
    adjOK noLetterDigit (normalizeChars s) = true := by
  simp only [normalizeChars]
  refine adjOK_pyReplace _ _ _ _ (by decide) (by decide) ?_ ?_ ?_
    (adjOK_pyReplace _ _ _ _ (by decide) (by decide) ?_ ?_ ?_
      (adjOK_pyReplace _ _ _ _ (by decide) (by decide) ?_ ?_ ?_
        (adjOK_noLetterDigit_letterDigitSpace _)))
  · intro a p0 r0 _ hr0 _
    rw [show "last name".data.head? = some 'l' from by decide] at hr0
    injection hr0 with hv
    subst hv
    exact noLetterDigit_right_nondigit a 'l' (by decide)
  · intro b pl rl hpl hrl hR
    rw [show "owner last name".data.getLast? = some 'e' from by decide] at hpl
    rw [show "last name".data.getLast? = some 'e' from by decide] at hrl
    injection hpl with hv1
    injection hrl with hv2
    subst hv1
    subst hv2
    exact noLetterDigit_left_letters 'e' 'e' (by decide) (by decide) b hR
  · intro rl r0 hrl hr0
    rw [show "last name".data.getLast? = some 'e' from by decide] at hrl
    rw [show "last name".data.head? = some 'l' from by decide] at hr0
    injection hrl with hv1
    injection hr0 with hv2
    subst hv1
    subst hv2
    decide
  · intro a p0 r0 _ hr0 _
    rw [show "first name".data.head? = some 'f' from by decide] at hr0
    injection hr0 with hv
    subst hv
    exact noLetterDigit_right_nondigit a 'f' (by decide)
  · intro b pl rl hpl hrl hR
    rw [show "owner first name".data.getLast? = some 'e' from by decide] at hpl
    rw [show "first name".data.getLast? = some 'e' from by decide] at hrl
    injection hpl with hv1
    injection hrl with hv2
    subst hv1
    subst hv2
    exact noLetterDigit_left_letters 'e' 'e' (by decide) (by decide) b hR
  · intro rl r0 hrl hr0
    rw [show "first name".data.getLast? = some 'e' from by decide] at hrl
    rw [show "first name".data.head? = some 'f' from by decide] at hr0
    injection hrl with hv1
    injection hr0 with hv2
    subst hv1
    subst hv2
    decide
  · intro a p0 r0 _ hr0 _
    rw [show "property address".data.head? = some 'p' from by decide] at hr0
    injection hr0 with hv
    subst hv
    exact noLetterDigit_right_nondigit a 'p' (by decide)
  · intro b pl rl hpl hrl hR
    rw [show "address street".data.getLast? = some 't' from by decide] at hpl
    rw [show "property address".data.getLast? = some 's' from by decide] at hrl
    injection hpl with hv1
    injection hrl with hv2
    subst hv1
    subst hv2
    exact noLetterDigit_left_letters 't' 's' (by decide) (by decide) b hR
  · intro rl r0 hrl hr0
    rw [show "property address".data.getLast? = some 's' from by decide] at hrl
    rw [show "property address".data.head? = some 'p' from by decide] at hr0
    injection hrl with hv1
    injection hr0 with hv2
    subst hv1
    subst hv2
    decide

theorem normalize_idem_aux (l : List Char)
    (htrim : trimL (normalizeChars l) = normalizeChars l)
    (h1 : containsSub "address street".data (normalizeChars l) = false)
    (h2 : containsSub "owner first name".data (normalizeChars l) = false)
    (h3 : containsSub "owner last name".data (normalizeChars l) = false) :
    normalizeChars (normalizeChars l) = normalizeChars l := by
  rw [show normalizeChars (normalizeChars l) =
    pyReplace (pyReplace (pyReplace (letterDigitSpace (collapseWs (sepToSpace
      (lowerL (trimL (normalizeChars l)))))) "address street".data
      "property address".data) "owner first name".data "first name".data)
      "owner last name".data "last name".data from rfl]
  rw [htrim, lowerL_fix _ (normalizeChars_noUpper l),
    sepToSpace_fix _ (normalizeChars_noSep l),
    collapseWs_fix _ (normalizeChars_wsOnly l) (normalizeChars_adjDS l),
    letterDigitSpace_fix _ (normalizeChars_adjLD l),
    pyReplace_fix _ _ _ h1, pyReplace_fix _ _ _ h2, pyReplace_fix _ _ _ h3]

/-- C8 counterexample: `normalize_column_name` is not idempotent — the
separator rewrite can leave a trailing space that only a second pass
strips: `normalize("a_") = "a "` but `normalize(normalize("a_")) = "a"`.
(Rewrite cascades break it too: `normalize("owner owner first name") =
"owner first name"`, which a second pass rewrites again to
`"first name"`.) -/
theorem normalize_not_idempotent_counterexample :
    normalize_column_name "a_" = "a " ∧
    normalize_column_name (normalize_column_name "a_") = "a" ∧
    normalize_column_name (normalize_column_name "a_") ≠
      normalize_column_name "a_" ∧
    normalize_column_name (normalize_column_name "owner owner first name") ≠
      normalize_column_name "owner owner first name" := by decide

set_option maxHeartbeats 1000000 in
/-- C8 (corrected): `normalize_column_name` is idempotent exactly on the
well-behaved outputs — for every string `s` whose normalization is
already stripped and contains no occurrence of a literal rewrite source
(`"address street"`, `"owner first name"`, `"owner last name"`), a second
normalization is the identity; and the claim's instances hold:
`normalize("Phone_1") = normalize("phone 1") = "phone 1"`. Unconditional
idempotence fails (see the counterexample). -/
theorem normalize_conditionally_idempotent :
    (∀ s : String,
      pyStrip (normalize_column_name s) = normalize_column_name s →
      containsSub "address street".data (normalize_column_name s).data = false →
      containsSub "owner first name".data (normalize_column_name s).data = false →
      containsSub "owner last name".data (normalize_column_name s).data = false →
      normalize_column_name (normalize_column_name s) = normalize_column_name s) ∧
    normalize_column_name "Phone_1" = "phone 1" ∧
    normalize_column_name "phone 1" = "phone 1" := by
  refine ⟨fun s ht h1 h2 h3 => ?_, by decide, by decide⟩
  have ht' : trimL (normalizeChars s.data) = normalizeChars s.data :=
    congrArg String.data ht
  exact congrArg String.mk (normalize_idem_aux s.data ht' h1 h2 h3)

/-- C8 witness: the conditional idempotence applied at `"Phone_1"`. -/
theorem normalize_conditionally_idempotent_witness :
    pyStrip (normalize_column_name "Phone_1") = normalize_column_name "Phone_1" ∧
    normalize_column_name (normalize_column_name "Phone_1") =
      normalize_column_name "Phone_1" :=
  ⟨by decide,
   normalize_conditionally_idempotent.1 "Phone_1" (by decide) (by decide)
    (by decide) (by decide)⟩
